import Mathlib

/-!
# pdfst: stamp placement and scaling

A shallow embedding of `pdfst.go`.  The Go program keeps its flags in package
level variables and mutates four of them inside `markPDF`; here they are the
fields of `Globals`, passed and returned explicitly.  The calls into the PDF
library (open, parse, page count, stat, image load, page read, write) are the
fields of `World`: each one either fails or yields the values the program
reads from it.

A `float64` value is the rational number it stands for (`ℚ`); infinities and
NaN are not modelled, and a division by zero, which Go evaluates to an
infinity or NaN, is `0` here.  The arithmetic of `markPDF` is embedded twice.
`resolveSize`, `toPoints`, `scaleArgs`, `setPosArgs`, `markPDF` compute with
exact arithmetic: they give the expressions the code evaluates and its control
flow, and are used where rounding plays no part.  `resolveSizeRnd`,
`toPointsRnd`, `scaleArgsRnd`, `setPosArgsRnd` round after every operation;
with `round64` they give the `float64` values the program computes (rounding
and underflow included, overflow left out), and with `id` they are the exact
definitions again.

Go's `int` is `ℤ`.  Text written to standard output is not modelled.  The
creator `c` of the PDF library is reduced to what `markPDF` reads back from it
(the page size of its context), the page it currently draws on and the list of
draws it receives.  The errors returned by `c.AddPage` and `c.Draw` are not
looked at by the program, so neither call ends the run; a `c.AddPage` that fails
leaves the creator as it was.  `flag.Parse` is outside the model: `main` starts
from the parsed flags and the number of positional arguments.
-/

namespace Pdfst

/-- The constant `mm2pt` (`const mm2pt=72/25.4`). -/
def mm2pt : ℚ := 72 / 25.4

/-- The package level variables bound to the command line flags. -/
structure Globals where
  offsetX : ℚ
  offsetY : ℚ
  imgW : ℚ
  imgH : ℚ
  imgPos : ℤ
  verbose : Bool
  opacity : ℚ
  deriving DecidableEq

/-- The flag defaults registered in `init`. -/
def defaults : Globals :=
  { offsetX := 10, offsetY := 10, imgW := 0, imgH := 0, imgPos := 1,
    verbose := false, opacity := 0.8 }

/-- Size resolution of `markPDF`, the two `if` statements that follow the
reading of the stamp's natural size `imgWd`, `imgHt`. -/
def resolveSize (g : Globals) (imgWd imgHt : ℚ) : Globals :=
  let g1 := if g.imgW = 0 ∧ g.imgH = 0 then { g with imgW := 50 } else g
  if g1.imgW = 0 then { g1 with imgW := imgWd / imgHt * g1.imgH }
  else if g1.imgH = 0 then { g1 with imgH := imgHt / imgWd * g1.imgW }
  else g1

/-- The four `*= mm2pt` assignments of `markPDF`. -/
def toPoints (g : Globals) : Globals :=
  { g with
    offsetX := g.offsetX * mm2pt
    offsetY := g.offsetY * mm2pt
    imgW := g.imgW * mm2pt
    imgH := g.imgH * mm2pt }

/-- The globals as they stand when `markPDF` reaches `stampImg.Scale`. -/
def resolve (g : Globals) (imgWd imgHt : ℚ) : Globals :=
  toPoints (resolveSize g imgWd imgHt)

/-- The arguments `markPDF` passes to `stampImg.Scale`. -/
def scaleArgs (g : Globals) (imgWd imgHt : ℚ) : ℚ × ℚ :=
  (g.imgW / imgWd, g.imgH / imgHt)

/-- The `x`, `y` assignments and the `switch imgPos` of the loop body of
`markPDF`, for a page of width `w` and height `h`: the pair handed to
`stampImg.SetPos`. -/
def setPosArgs (g : Globals) (w h : ℚ) : ℚ × ℚ :=
  let x := g.offsetX
  let y := g.offsetY
  if g.imgPos = 2 then ((w - g.imgW) / 2, y)
  else if g.imgPos = 3 then (w - g.imgW - g.offsetX, y)
  else if g.imgPos = 4 then (x, (h - g.imgH) / 2)
  else if g.imgPos = 5 then ((w - g.imgW) / 2, (h - g.imgH) / 2)
  else if g.imgPos = 6 then (w - g.imgW - g.offsetX, (h - g.imgH) / 2)
  else if g.imgPos = 7 then (x, h - g.imgH - g.offsetY)
  else if g.imgPos = 8 then ((w - g.imgW) / 2, h - g.imgH - g.offsetY)
  else if g.imgPos = 9 then (w - g.imgW - g.offsetX, h - g.imgH - g.offsetY)
  else (x, y)

/-- The state of the stamp image object that `markPDF` sets: the factors given
to `Scale`, the value given to `SetOpacity`, the position given to `SetPos`. -/
structure Stamp where
  scaleX : ℚ
  scaleY : ℚ
  opacity : ℚ
  x : ℚ
  y : ℚ
  deriving DecidableEq

/-- A page handed out by `pdfReader.GetPage`: the width and height of its
MediaBox, `none` when the page has no MediaBox. -/
structure Page where
  mediaBox : Option (ℚ × ℚ)
  deriving DecidableEq

/-- One `c.Draw(stampImg)`: the page it lands on, by its number in the source
document (`none` while no page has been added to the creator), and the stamp as
it is then. -/
structure Placement where
  page : Option ℕ
  stamp : Stamp
  deriving DecidableEq

/-- The part of the creator `c` that `markPDF` uses: the page size of its
context (`c.Context().PageWidth`, `c.Context().PageHeight`), the source number
of the page it currently draws on, and the draws made so far. -/
structure Creator where
  pageWidth : ℚ
  pageHeight : ℚ
  current : Option ℕ
  draws : List Placement
  deriving DecidableEq

/-- The call `c.AddPage(page)` for the source page numbered `pageNum`, as the
PDF library (which is not part of the repository) behaves: a page with a
MediaBox becomes the current page and gives the context its size; for a page
without one the library returns an error and leaves the creator as it is.
`markPDF` does not look at that error. -/
def Creator.addPage (c : Creator) (pageNum : ℕ) (page : Page) : Creator :=
  match page.mediaBox with
  | some (pw, ph) => { c with pageWidth := pw, pageHeight := ph, current := some pageNum }
  | none => c

/-- The call `c.Draw(stampImg)`: the stamp is drawn on the current page.  The
error it returns is discarded by `markPDF`. -/
def Creator.draw (c : Creator) (img : Stamp) : Creator :=
  { c with draws := c.draws ++ [{ page := c.current, stamp := img }] }

/-- The local variables `w, h, x, y` of `markPDF`, the stamp object and the
creator. -/
structure LoopState where
  w : ℚ
  h : ℚ
  x : ℚ
  y : ℚ
  stampImg : Stamp
  c : Creator
  deriving DecidableEq

/-- The loop body of `markPDF` once `page`, numbered `i + 1`, has been read:
`c.AddPage(page)`, the page size taken from `c.Context()`, the position, then
`SetPos` and `Draw`. -/
def loopBody (g : Globals) (st : LoopState) (i : ℕ) (page : Page) : LoopState :=
  let c1 := st.c.addPage (i + 1) page
  let w := c1.pageWidth
  let h := c1.pageHeight
  let p := setPosArgs g w h
  let img := { st.stampImg with x := p.1, y := p.2 }
  { w := w, h := h, x := p.1, y := p.2, stampImg := img, c := c1.draw img }

/-- The `for i := 0; i < numPages; i++` loop of `markPDF`, with `n` iterations
left to run from index `i`.  `getPage` is `pdfReader.GetPage`: `none` when the
page cannot be read.  A page that cannot be read ends the process with code 1
(`fatalIfError`). -/
def pageLoop (getPage : ℕ → Option Page) (g : Globals) :
    ℕ → ℕ → LoopState → Except ℕ LoopState
  | 0, _, st => .ok st
  | n + 1, i, st =>
    match getPage (i + 1) with
    | none => .error 1
    | some page => pageLoop getPage g n (i + 1) (loopBody g st i page)

/-- The outcomes of the calls `markPDF` makes outside the program. -/
structure World where
  /-- Whether `os.Open(inputPath)` succeeds. -/
  openOk : Bool
  /-- Whether `pdf.NewPdfReader` succeeds. -/
  parseOk : Bool
  /-- The page count returned by `GetNumPages`, `none` on error. -/
  numPages : Option ℕ
  /-- Whether `os.Stat(stamp)` succeeds. -/
  statOk : Bool
  /-- The natural width and height of the stamp loaded by
  `creator.NewImageFromFile`, `none` on error. -/
  stampImg : Option (ℚ × ℚ)
  /-- The page `pageNum` returned by `GetPage`, `none` on error. -/
  getPage : ℕ → Option Page
  /-- Whether `c.WriteToFile(outputPath)` succeeds. -/
  writeOk : Bool
  /-- The page size in the context of a creator fresh from `creator.New()`. -/
  pageSize : ℚ × ℚ

/-- How a call of `markPDF` ends: the process exits with a code, or the
function returns its `error` value (`true` for a non-nil error). -/
inductive Outcome where
  | exited (code : ℕ)
  | returned (err : Bool)
  deriving DecidableEq

/-- What a call of `markPDF` leaves behind: how it ended and, when it got as
far as `c.WriteToFile`, the draws made on the creator by then. -/
structure Run where
  outcome : Outcome
  draws : List Placement
  deriving DecidableEq

/-- The function `markPDF`. -/
def markPDF (g : Globals) (world : World) : Run :=
  if !world.openOk then ⟨.exited 1, []⟩
  else if !world.parseOk then ⟨.exited 1, []⟩
  else
    match world.numPages with
    | none => ⟨.exited 1, []⟩
    | some numPages =>
      if !world.statOk then ⟨.exited 1, []⟩
      else
        match world.stampImg with
        | none => ⟨.exited 1, []⟩
        | some (imgWd, imgHt) =>
          let g1 := resolve g imgWd imgHt
          let s := scaleArgs g1 imgWd imgHt
          let img : Stamp :=
            { scaleX := s.1, scaleY := s.2, opacity := g1.opacity, x := 0, y := 0 }
          let c : Creator :=
            { pageWidth := world.pageSize.1, pageHeight := world.pageSize.2,
              current := none, draws := [] }
          match pageLoop world.getPage g1 numPages 0
              { w := 0, h := 0, x := 0, y := 0, stampImg := img, c := c } with
          | .error code => ⟨.exited code, []⟩
          | .ok st => ⟨.returned (!world.writeOk), st.c.draws⟩

/-- The function `main` after `flag.Parse`: `nargs` is `len(flag.Args())`, `g`
holds the parsed flags.  The value is the exit code of the process. -/
def main (nargs : ℕ) (g : Globals) (world : World) : ℕ :=
  if nargs < 3 then 0
  else
    match (markPDF g world).outcome with
    | .exited code => code
    | .returned _ => 0

/-- The placement drawn on the page numbered `pageNum`, of width `w` and
height `h`, by one pass through the loop body with the stamp object `img`. -/
def placementAt (g : Globals) (img : Stamp) (pageNum : ℕ) (w h : ℚ) : Placement :=
  { page := some pageNum
    stamp := { img with x := (setPosArgs g w h).1, y := (setPosArgs g w h).2 } }

/-- A run in which every call succeeds except `c.WriteToFile`: one A4 page and
a 200 by 100 stamp. -/
def writeFailWorld : World :=
  { openOk := true, parseOk := true, numPages := some 1, statOk := true,
    stampImg := some (200, 100), getPage := fun _ => some ⟨some (595, 842)⟩,
    writeOk := false, pageSize := (612, 792) }

/-- Whether every call `markPDF` makes before `c.WriteToFile` succeeds: open,
parse, page count, stat, image load and the read of each page `1..numPages`. -/
def readsOk (world : World) : Bool :=
  world.openOk && world.parseOk && world.statOk && world.stampImg.isSome &&
    match world.numPages with
    | none => false
    | some n => (List.range n).all (fun i => (world.getPage (i + 1)).isSome)

/-- A two-page document whose first page has a MediaBox of `first` and whose
second page has none. -/
def secondPageBare (first : ℚ × ℚ) : ℕ → Option Page :=
  fun k => if k = 1 then some ⟨some first⟩ else some ⟨none⟩

/-! ### Arithmetic with rounding

The same arithmetic of `markPDF` once more, with every operation followed by a
rounding `rnd`: `rnd = id` is the exact reading used above, `rnd = round64` is
IEEE 754 binary64 with round to nearest, ties to even, which is what Go's
`float64` does on each operation.  Values are the rationals a `float64` can
hold; overflow to an infinity and NaN are not modelled. -/

/-- The position of the leading binary digit of `n`: `ilog2 n n` is the `k`
with `2 ^ k ≤ n < 2 ^ (k + 1)` for `n ≥ 1`.  The first argument bounds the
recursion. -/
def ilog2 : ℕ → ℕ → ℕ
  | 0, _ => 0
  | fuel + 1, n => if n < 2 then 0 else ilog2 fuel (n / 2) + 1

/-- The integer `k` with `2 ^ k ≤ n / d < 2 ^ (k + 1)`, for `n, d ≥ 1`. -/
def floorLog2 (n d : ℕ) : ℤ :=
  let k0 : ℤ := (ilog2 n n : ℤ) - (ilog2 d d : ℤ)
  if d * 2 ^ k0.toNat ≤ n * 2 ^ (-k0).toNat then k0 else k0 - 1

/-- The integer nearest to `y`, the even one of the two when `y` lies halfway
between them. -/
def roundHalfEven (y : ℚ) : ℤ :=
  if Int.fract y < 1 / 2 then ⌊y⌋
  else if 1 / 2 < Int.fract y then ⌊y⌋ + 1
  else if ⌊y⌋ % 2 = 0 then ⌊y⌋ else ⌊y⌋ + 1

/-- The exponent `e` of the binary64 grid around `q ≠ 0`: with
`2 ^ k ≤ |q| < 2 ^ (k + 1)` it is `k - 52`, which leaves 53 significant bits,
and `-1074` in the subnormal range. -/
def exponent64 (q : ℚ) : ℤ :=
  max (floorLog2 q.num.natAbs q.den - 52) (-1074)

/-- The binary64 number nearest to `q`, ties to even: the multiple of
`2 ^ exponent64 q` nearest to `q`.  The exponent is not bounded above, so a
result beyond the largest `float64` is not turned into an infinity. -/
def round64 (q : ℚ) : ℚ :=
  if q = 0 then 0
  else (roundHalfEven (q / 2 ^ exponent64 q) : ℚ) * 2 ^ exponent64 q

/-- The smallest positive `float64`, `2 ^ (-1074)`, printed `5e-324`. -/
def minSubnormal : ℚ := mkRat 1 (2 ^ 1074)

/-- The flags `-w 5e-324`: the smallest positive target width, no height. -/
def tinyWidthFlags : Globals := { defaults with imgW := minSubnormal }

/-- The flags `-p 3 -x 0 -w 4.5`. -/
def farEdgeFlags : Globals := { defaults with imgPos := 3, offsetX := 0, imgW := 4.5 }

/-- Size resolution of `markPDF` (see `resolveSize`) with rounding `rnd`. -/
def resolveSizeRnd (rnd : ℚ → ℚ) (g : Globals) (imgWd imgHt : ℚ) : Globals :=
  let g1 := if g.imgW = 0 ∧ g.imgH = 0 then { g with imgW := 50 } else g
  if g1.imgW = 0 then { g1 with imgW := rnd (rnd (imgWd / imgHt) * g1.imgH) }
  else if g1.imgH = 0 then { g1 with imgH := rnd (rnd (imgHt / imgWd) * g1.imgW) }
  else g1

/-- The four `*= mm2pt` assignments of `markPDF` (see `toPoints`) with rounding
`rnd`; the constant `mm2pt` is itself rounded when it becomes a `float64`. -/
def toPointsRnd (rnd : ℚ → ℚ) (g : Globals) : Globals :=
  { g with
    offsetX := rnd (g.offsetX * rnd mm2pt)
    offsetY := rnd (g.offsetY * rnd mm2pt)
    imgW := rnd (g.imgW * rnd mm2pt)
    imgH := rnd (g.imgH * rnd mm2pt) }

/-- The globals as they stand when `markPDF` reaches `stampImg.Scale` (see
`resolve`) with rounding `rnd`. -/
def resolveRnd (rnd : ℚ → ℚ) (g : Globals) (imgWd imgHt : ℚ) : Globals :=
  toPointsRnd rnd (resolveSizeRnd rnd g imgWd imgHt)

/-- The arguments `markPDF` passes to `stampImg.Scale` (see `scaleArgs`) with
rounding `rnd`. -/
def scaleArgsRnd (rnd : ℚ → ℚ) (g : Globals) (imgWd imgHt : ℚ) : ℚ × ℚ :=
  (rnd (g.imgW / imgWd), rnd (g.imgH / imgHt))

/-- The pair handed to `stampImg.SetPos` (see `setPosArgs`) with rounding
`rnd`. -/
def setPosArgsRnd (rnd : ℚ → ℚ) (g : Globals) (w h : ℚ) : ℚ × ℚ :=
  let x := g.offsetX
  let y := g.offsetY
  if g.imgPos = 2 then (rnd (rnd (w - g.imgW) / 2), y)
  else if g.imgPos = 3 then (rnd (rnd (w - g.imgW) - g.offsetX), y)
  else if g.imgPos = 4 then (x, rnd (rnd (h - g.imgH) / 2))
  else if g.imgPos = 5 then (rnd (rnd (w - g.imgW) / 2), rnd (rnd (h - g.imgH) / 2))
  else if g.imgPos = 6 then (rnd (rnd (w - g.imgW) - g.offsetX), rnd (rnd (h - g.imgH) / 2))
  else if g.imgPos = 7 then (x, rnd (rnd (h - g.imgH) - g.offsetY))
  else if g.imgPos = 8 then (rnd (rnd (w - g.imgW) / 2), rnd (rnd (h - g.imgH) - g.offsetY))
  else if g.imgPos = 9 then
    (rnd (rnd (w - g.imgW) - g.offsetX), rnd (rnd (h - g.imgH) - g.offsetY))
  else (x, y)

/-! ## Lemmas -/

theorem mm2pt_eq : mm2pt = 360 / 127 := by
  norm_num [mm2pt]

theorem mm2pt_pos : 0 < mm2pt := by
  norm_num [mm2pt]

theorem loopBody_draws (g : Globals) (st : LoopState) (i : ℕ) (pw ph : ℚ) :
    (loopBody g st i ⟨some (pw, ph)⟩).c.draws =
      st.c.draws ++ [placementAt g st.stampImg (i + 1) pw ph] :=
  rfl

theorem placementAt_loopBody (g g1 : Globals) (st : LoopState) (i k : ℕ) (page : Page)
    (w h : ℚ) :
    placementAt g1 (loopBody g st i page).stampImg k w h = placementAt g1 st.stampImg k w h :=
  rfl

theorem pageLoop_draws (getPage : ℕ → Option Page) (g : Globals) (dims : ℕ → ℚ × ℚ) :
    ∀ (n i : ℕ) (st : LoopState),
      (∀ k, k < n → getPage (i + k + 1) = some ⟨some (dims (i + k))⟩) →
      ∃ st1, pageLoop getPage g n i st = .ok st1 ∧
        st1.c.draws = st.c.draws ++ (List.range n).map
          (fun k => placementAt g st.stampImg (i + k + 1) (dims (i + k)).1 (dims (i + k)).2) := by
  intro n
  induction n with
  | zero => intro i st _; exact ⟨st, rfl, by simp⟩
  | succ n ih =>
    intro i st hread
    have h0 : getPage (i + 1) = some ⟨some (dims i)⟩ := by simpa using hread 0 (Nat.succ_pos n)
    have hrest : ∀ k, k < n → getPage (i + 1 + k + 1) = some ⟨some (dims (i + 1 + k))⟩ := by
      intro k hk
      have := hread (k + 1) (Nat.succ_lt_succ hk)
      simpa [Nat.add_assoc, Nat.add_comm 1 k] using this
    obtain ⟨st1, hrun, hdraws⟩ := ih (i + 1) (loopBody g st i ⟨some (dims i)⟩) hrest
    refine ⟨st1, ?_, ?_⟩
    · rw [pageLoop, h0]
      exact hrun
    · rw [hdraws, show (dims i) = ((dims i).1, (dims i).2) from rfl, loopBody_draws,
        List.range_succ_eq_map, List.map_cons, List.map_map, List.append_assoc]
      congr 1
      simp only [List.singleton_append, Nat.add_zero, List.cons.injEq, true_and]
      apply List.map_congr_left
      intro k _
      simp only [Function.comp, placementAt_loopBody, Nat.succ_eq_add_one]
      rw [show i + (k + 1) = i + 1 + k by omega]

/-- When the `n` pages of the document all read successfully and each has a
MediaBox, page `i + 1` having width and height `dims i`, the page loop started
from any values of `w, h, x, y` runs to its end and draws exactly `n`
placements, in page order; the placement on page `i + 1` is the loop body's
formula at that page's own width and height, with the scale factors and the
opacity the stamp had before the loop. -/
theorem pageLoop_placements (getPage : ℕ → Option Page) (g : Globals)
    (dims : ℕ → ℚ × ℚ) (n : ℕ) (st : LoopState)
    (hread : ∀ i, i < n → getPage (i + 1) = some ⟨some (dims i)⟩) :
    ∃ st1, pageLoop getPage g n 0 st = .ok st1 ∧
      st1.c.draws = st.c.draws ++ (List.range n).map (fun i =>
        { page := some (i + 1)
          stamp :=
            { scaleX := st.stampImg.scaleX
              scaleY := st.stampImg.scaleY
              opacity := st.stampImg.opacity
              x := (setPosArgs g (dims i).1 (dims i).2).1
              y := (setPosArgs g (dims i).1 (dims i).2).2 } }) := by
  have h := pageLoop_draws getPage g dims n 0 st (by simpa using hread)
  simpa [placementAt] using h

theorem pageLoop_ok (getPage : ℕ → Option Page) (g : Globals) :
    ∀ (n i : ℕ) (st : LoopState), (∀ k, k < n → (getPage (i + k + 1)).isSome = true) →
      ∃ st1, pageLoop getPage g n i st = .ok st1 := by
  intro n
  induction n with
  | zero => intro i st _; exact ⟨st, rfl⟩
  | succ n ih =>
    intro i st hread
    have h0 := hread 0 (Nat.succ_pos n)
    rw [Option.isSome_iff_exists] at h0
    obtain ⟨page, hpage⟩ := h0
    have hrest : ∀ k, k < n → (getPage (i + 1 + k + 1)).isSome = true := by
      intro k hk
      have := hread (k + 1) (Nat.succ_lt_succ hk)
      simpa [Nat.add_assoc, Nat.add_comm 1 k] using this
    obtain ⟨st1, hrun⟩ := ih (i + 1) (loopBody g st i page) hrest
    refine ⟨st1, ?_⟩
    rw [pageLoop]
    simp only [Nat.add_zero] at hpage
    rw [hpage]
    exact hrun

theorem pageLoop_congr (getPage : ℕ → Option Page) (g g1 : Globals)
    (hpos : ∀ w h, setPosArgs g w h = setPosArgs g1 w h) :
    ∀ (n i : ℕ) (st : LoopState), pageLoop getPage g n i st = pageLoop getPage g1 n i st := by
  intro n
  induction n with
  | zero => intro i st; rfl
  | succ n ih =>
    intro i st
    rw [pageLoop, pageLoop]
    cases hpg : getPage (i + 1) with
    | none => rfl
    | some page =>
      simp only [loopBody, hpos]
      exact ih _ _

theorem pageLoop_error (getPage : ℕ → Option Page) (g : Globals) :
    ∀ (n i : ℕ) (st : LoopState) (code : ℕ),
      pageLoop getPage g n i st = .error code → code = 1 := by
  intro n
  induction n with
  | zero => intro i st code h; simp [pageLoop] at h
  | succ n ih =>
    intro i st code h
    rw [pageLoop] at h
    cases hpg : getPage (i + 1) with
    | none => rw [hpg] at h; simp at h; exact h.symm
    | some page =>
      rw [hpg] at h
      exact ih _ _ _ h

/-- The page loop ends the process with code 1 as soon as one page of the
range cannot be read. -/
theorem pageLoop_unreadable (getPage : ℕ → Option Page) (g : Globals) :
    ∀ (n i : ℕ) (st : LoopState), (∃ k, k < n ∧ getPage (i + k + 1) = none) →
      pageLoop getPage g n i st = .error 1 := by
  intro n
  induction n with
  | zero => intro i st ⟨k, hk, _⟩; omega
  | succ n ih =>
    intro i st ⟨k, hk, hnone⟩
    rw [pageLoop]
    cases hpg : getPage (i + 1) with
    | none => rfl
    | some page =>
      cases k with
      | zero => simp [hpg] at hnone
      | succ k =>
        apply ih
        refine ⟨k, by omega, ?_⟩
        rw [← hnone]
        congr 1
        omega

theorem resolveSize_imgPos (g : Globals) (imgWd imgHt : ℚ) :
    (resolveSize g imgWd imgHt).imgPos = g.imgPos := by
  unfold resolveSize
  dsimp only
  split_ifs <;> rfl

theorem resolve_setImgPos (g : Globals) (p : ℤ) (imgWd imgHt : ℚ) :
    resolve { g with imgPos := p } imgWd imgHt = { resolve g imgWd imgHt with imgPos := p } := by
  unfold resolve resolveSize toPoints
  dsimp only
  split_ifs <;> rfl

theorem setPosArgs_default (g : Globals) (w h : ℚ) (hp : g.imgPos < 1 ∨ 9 < g.imgPos) :
    setPosArgs g w h = (g.offsetX, g.offsetY) := by
  unfold setPosArgs
  dsimp only
  split_ifs <;> first | rfl | omega

theorem setPosArgs_one (g : Globals) (w h : ℚ) :
    setPosArgs { g with imgPos := 1 } w h = (g.offsetX, g.offsetY) := by
  simp [setPosArgs]

/-- The exit code of `main`: 0 with fewer than three positional arguments, 0
when every call before `c.WriteToFile` succeeds (whether the write succeeds or
not), 1 otherwise. -/
theorem main_exit_code (nargs : ℕ) (g : Globals) (world : World) :
    main nargs g world = if nargs < 3 then 0 else if readsOk world then 0 else 1 := by
  unfold main
  split_ifs with hn hr
  · rfl
  · unfold readsOk at hr
    unfold markPDF
    cases hnum : world.numPages with
    | none => simp [hnum] at hr
    | some numPages =>
    cases himg : world.stampImg with
    | none => simp [himg] at hr
    | some d =>
    obtain ⟨imgWd, imgHt⟩ := d
    simp only [hnum, himg, Option.isSome_some, Bool.and_true, Bool.and_eq_true,
      List.all_eq_true, List.mem_range] at hr
    obtain ⟨⟨⟨hopen, hparse⟩, hstat⟩, hpages⟩ := hr
    obtain ⟨st1, hrun⟩ := pageLoop_ok world.getPage (resolve g imgWd imgHt) numPages 0
      { w := 0, h := 0, x := 0, y := 0,
        stampImg :=
          { scaleX := (scaleArgs (resolve g imgWd imgHt) imgWd imgHt).1
            scaleY := (scaleArgs (resolve g imgWd imgHt) imgWd imgHt).2
            opacity := (resolve g imgWd imgHt).opacity, x := 0, y := 0 },
        c := { pageWidth := world.pageSize.1, pageHeight := world.pageSize.2,
               current := none, draws := [] } }
      (by intro k hk; simpa using hpages k hk)
    simp [hopen, hparse, hstat, hrun]
  · unfold readsOk at hr
    unfold markPDF
    cases hopen : world.openOk with
    | false => rfl
    | true =>
    cases hparse : world.parseOk with
    | false => rfl
    | true =>
    cases hnum : world.numPages with
    | none => rfl
    | some numPages =>
    cases hstat : world.statOk with
    | false => rfl
    | true =>
    cases himg : world.stampImg with
    | none => rfl
    | some d =>
    obtain ⟨imgWd, imgHt⟩ := d
    simp only [hopen, hparse, hnum, hstat, himg, Option.isSome_some, Bool.and_self,
      Bool.true_and, List.all_eq_true, List.mem_range, Bool.not_eq_true, not_forall,
      Option.not_isSome, Option.isNone_iff_eq_none, exists_prop] at hr
    obtain ⟨k, hk, hnone⟩ := hr
    have hloop := pageLoop_unreadable world.getPage (resolve g imgWd imgHt) numPages 0
      { w := 0, h := 0, x := 0, y := 0,
        stampImg :=
          { scaleX := (scaleArgs (resolve g imgWd imgHt) imgWd imgHt).1
            scaleY := (scaleArgs (resolve g imgWd imgHt) imgWd imgHt).2
            opacity := (resolve g imgWd imgHt).opacity, x := 0, y := 0 },
        c := { pageWidth := world.pageSize.1, pageHeight := world.pageSize.2,
               current := none, draws := [] } } ⟨k, hk, by simpa using hnone⟩
    simp [hloop]

/-! ## The claims -/

/-- C1: for every anchor code 1..9 the position handed to `SetPos` by the loop
body is the row of the anchor table: `x` is `offsetX` for anchors 1, 4, 7,
`(w-imgW)/2` for 2, 5, 8 and `w-imgW-offsetX` for 3, 6, 9; `y` is `offsetY`
for 1, 2, 3, `(h-imgH)/2` for 4, 5, 6 and `h-imgH-offsetY` for 7, 8, 9, where
`w`, `h` is the page size the loop body reads.  For anchor 1 it is
`(offsetX, offsetY)` whatever the page size. -/
theorem setPosArgs_anchor_table (g : Globals) (st : LoopState) (i : ℕ) (page : Page)
    (w h : ℚ) (hp : 1 ≤ g.imgPos ∧ g.imgPos ≤ 9) :
    (setPosArgs g w h).1 =
        (if g.imgPos = 1 ∨ g.imgPos = 4 ∨ g.imgPos = 7 then g.offsetX
         else if g.imgPos = 2 ∨ g.imgPos = 5 ∨ g.imgPos = 8 then (w - g.imgW) / 2
         else w - g.imgW - g.offsetX) ∧
    (setPosArgs g w h).2 =
        (if g.imgPos = 1 ∨ g.imgPos = 2 ∨ g.imgPos = 3 then g.offsetY
         else if g.imgPos = 4 ∨ g.imgPos = 5 ∨ g.imgPos = 6 then (h - g.imgH) / 2
         else h - g.imgH - g.offsetY) ∧
    (g.imgPos = 1 → setPosArgs g w h = (g.offsetX, g.offsetY)) ∧
    (loopBody g st i page).stampImg.x =
        (setPosArgs g (loopBody g st i page).w (loopBody g st i page).h).1 ∧
    (loopBody g st i page).stampImg.y =
        (setPosArgs g (loopBody g st i page).w (loopBody g st i page).h).2 ∧
    (loopBody g st i ⟨some (w, h)⟩).stampImg.x = (setPosArgs g w h).1 ∧
    (loopBody g st i ⟨some (w, h)⟩).stampImg.y = (setPosArgs g w h).2 := by
  refine ⟨?_, ?_, ?_, rfl, rfl, rfl, rfl⟩
  all_goals
    obtain ⟨ox, oy, iw, ih, p, v, o⟩ := g
    obtain ⟨h1, h9⟩ := hp
    simp only at h1 h9
    interval_cases p <;> simp [setPosArgs]

/-- Witness for C1: anchor 9 on an A4 page (595 by 842 pt) with a 100 by 50 pt
stamp and offsets of 20 pt. -/
theorem setPosArgs_anchor_table_witness :
    setPosArgs { defaults with imgPos := 9, imgW := 100, imgH := 50, offsetX := 20,
                               offsetY := 20 } 595 842 = (475, 772) := by
  have h := setPosArgs_anchor_table
    { defaults with imgPos := 9, imgW := 100, imgH := 50, offsetX := 20, offsetY := 20 }
    ⟨0, 0, 0, 0, ⟨1, 1, 1, 0, 0⟩, ⟨612, 792, none, []⟩⟩ 0 ⟨some (595, 842)⟩ 595 842
    (by decide)
  refine Prod.ext ?_ ?_
  · rw [h.1]; norm_num
  · rw [h.2.1]; norm_num

/-- C3: for a stamp of natural size `imgWd` by `imgHt` (positive or not), when
the target width is 0 and the target height is not, size resolution sets the
width (in millimetres) to `imgWd/imgHt*imgH` and leaves the height as it is;
when the target height is 0 and the target width is not, it sets the height to
`imgHt/imgWd*imgW` and leaves the width as it is. -/
theorem resolveSize_aspect (g : Globals) (imgWd imgHt : ℚ) :
    (g.imgW = 0 → g.imgH ≠ 0 →
      (resolveSize g imgWd imgHt).imgW = imgWd / imgHt * g.imgH ∧
      (resolveSize g imgWd imgHt).imgH = g.imgH) ∧
    (g.imgH = 0 → g.imgW ≠ 0 →
      (resolveSize g imgWd imgHt).imgH = imgHt / imgWd * g.imgW ∧
      (resolveSize g imgWd imgHt).imgW = g.imgW) := by
  constructor
  · intro hW hH
    simp [resolveSize, hW, hH]
  · intro hH hW
    simp [resolveSize, hW, hH]

/-- Witness for C3: a 200 by 100 stamp with height 20 mm and no width resolves
to a width of 40 mm, the height staying 20 mm. -/
theorem resolveSize_aspect_witness :
    (resolveSize { defaults with imgH := 20 } 200 100).imgW = 40 ∧
    (resolveSize { defaults with imgH := 20 } 200 100).imgH = 20 := by
  have h := (resolveSize_aspect { defaults with imgH := 20 } 200 100).1 rfl (by norm_num)
  refine ⟨?_, h.2⟩
  rw [h.1]
  norm_num

/-- C4: when the target width and the target height are both 0, size
resolution yields a width of 50 mm for every stamp, and the height
`imgHt/imgWd*50` mm. -/
theorem resolveSize_default (g : Globals) (imgWd imgHt : ℚ)
    (hW : g.imgW = 0) (hH : g.imgH = 0) :
    (resolveSize g imgWd imgHt).imgW = 50 ∧
    (resolveSize g imgWd imgHt).imgH = imgHt / imgWd * 50 := by
  simp [resolveSize, hW, hH]

/-- Witness for C4: the flag defaults with a 200 by 100 stamp resolve to 50 mm
by 25 mm. -/
theorem resolveSize_default_witness :
    (resolveSize defaults 200 100).imgW = 50 ∧ (resolveSize defaults 200 100).imgH = 25 := by
  have h := resolveSize_default defaults 200 100 rfl rfl
  refine ⟨h.1, ?_⟩
  rw [h.2]
  norm_num

/-- C5: when the target width and the target height are both nonzero, the
resolved size in points is `(imgW*72/25.4, imgH*72/25.4)` whatever the natural
size of the stamp, and the resolved offsets are
`(offsetX*72/25.4, offsetY*72/25.4)`. -/
theorem resolve_both_set (g : Globals) (imgWd imgHt : ℚ)
    (hW : g.imgW ≠ 0) (hH : g.imgH ≠ 0) :
    (resolve g imgWd imgHt).imgW = g.imgW * 72 / 25.4 ∧
    (resolve g imgWd imgHt).imgH = g.imgH * 72 / 25.4 ∧
    (resolve g imgWd imgHt).offsetX = g.offsetX * 72 / 25.4 ∧
    (resolve g imgWd imgHt).offsetY = g.offsetY * 72 / 25.4 := by
  simp only [resolve, resolveSize, toPoints, hW, hH, false_and, if_false, mm2pt, mul_div_assoc]
  trivial

/-- Witness for C5: 127 mm by 254 mm with the default offsets of 10 mm gives
360 pt by 720 pt and offsets of 3600/127 pt, for a 200 by 100 stamp. -/
theorem resolve_both_set_witness :
    (resolve { defaults with imgW := 127, imgH := 254 } 200 100).imgW = 360 ∧
    (resolve { defaults with imgW := 127, imgH := 254 } 200 100).imgH = 720 ∧
    (resolve { defaults with imgW := 127, imgH := 254 } 200 100).offsetX = 3600 / 127 := by
  have h := resolve_both_set { defaults with imgW := 127, imgH := 254 } 200 100
    (by norm_num) (by norm_num)
  refine ⟨?_, ?_, ?_⟩
  · rw [h.1]; norm_num
  · rw [h.2.1]; norm_num
  · rw [h.2.2.1]; norm_num [defaults]

/-- C6: for every anchor code outside 1..9 the position handed to `SetPos` is
`(offsetX, offsetY)`, the same as for anchor 1, and the whole run of `markPDF`
(how it ends and what it draws) is the run for anchor 1: the code is not
rejected. -/
theorem setPosArgs_out_of_range (g : Globals) (hp : g.imgPos < 1 ∨ 9 < g.imgPos) :
    (∀ w h : ℚ, setPosArgs g w h = (g.offsetX, g.offsetY) ∧
      setPosArgs g w h = setPosArgs { g with imgPos := 1 } w h) ∧
    (∀ world : World, markPDF g world = markPDF { g with imgPos := 1 } world) := by
  refine ⟨fun w h => ⟨setPosArgs_default g w h hp, ?_⟩, fun world => ?_⟩
  · rw [setPosArgs_default g w h hp, setPosArgs_one]
  · unfold markPDF
    cases world.numPages with
    | none => rfl
    | some numPages =>
      cases world.stampImg with
      | none => rfl
      | some d =>
        obtain ⟨imgWd, imgHt⟩ := d
        have hpos : ∀ w h, setPosArgs (resolve g imgWd imgHt) w h =
            setPosArgs (resolve { g with imgPos := 1 } imgWd imgHt) w h := by
          intro w h
          rw [resolve_setImgPos g 1, setPosArgs_one, setPosArgs_default]
          simpa [resolve, toPoints, resolveSize_imgPos] using hp
        have hop : (resolve { g with imgPos := 1 } imgWd imgHt).opacity =
            (resolve g imgWd imgHt).opacity := by rw [resolve_setImgPos g 1]
        have hsc : scaleArgs (resolve { g with imgPos := 1 } imgWd imgHt) imgWd imgHt =
            scaleArgs (resolve g imgWd imgHt) imgWd imgHt := by rw [resolve_setImgPos g 1]; rfl
        simp only [hop, hsc, pageLoop_congr world.getPage _ _ hpos]

/-- Witness for C6: anchors 0 and 10 with the default offsets on an A4 page. -/
theorem setPosArgs_out_of_range_witness :
    setPosArgs { defaults with imgPos := 0 } 595 842 = (10, 10) ∧
    setPosArgs { defaults with imgPos := 10 } 595 842 = (10, 10) :=
  ⟨((setPosArgs_out_of_range { defaults with imgPos := 0 } (by decide)).1 595 842).1,
   ((setPosArgs_out_of_range { defaults with imgPos := 10 } (by decide)).1 595 842).1⟩

/-- C2, the code at a write failure: with three positional arguments and every
call before `c.WriteToFile` succeeding, a failing write makes `markPDF` return
a non-nil error, which `main` drops: the exit code is 0, not 1. -/
theorem main_write_failure_exit :
    readsOk writeFailWorld = true ∧ writeFailWorld.writeOk = false ∧
    (markPDF defaults writeFailWorld).outcome = .returned true ∧
    main 3 defaults writeFailWorld = 0 := by
  refine ⟨by decide, rfl, ?_, ?_⟩
  · simp [markPDF, writeFailWorld, pageLoop]
  · rw [main_exit_code]
    decide

/-- C7, the code at a page that cannot be added: a document of two pages, both
read successfully, the second without a MediaBox, anchor 5, a resolved stamp of
100 by 50 pt.  `c.AddPage` fails on page 2 and `markPDF` goes on: the second
draw lands on page 1 again, at the position computed from the size of page 1
(A4 in the first run, Letter in the second), so it follows the dimensions of
another page. -/
theorem pageLoop_second_page_bare :
    (∃ st1, pageLoop (secondPageBare (595, 842))
        { defaults with imgPos := 5, imgW := 100, imgH := 50 } 2 0
        ⟨0, 0, 0, 0, ⟨2, 2, 1, 0, 0⟩, ⟨612, 792, none, []⟩⟩ = .ok st1 ∧
      st1.c.draws = [⟨some 1, ⟨2, 2, 1, 495 / 2, 396⟩⟩, ⟨some 1, ⟨2, 2, 1, 495 / 2, 396⟩⟩]) ∧
    (∃ st1, pageLoop (secondPageBare (612, 792))
        { defaults with imgPos := 5, imgW := 100, imgH := 50 } 2 0
        ⟨0, 0, 0, 0, ⟨2, 2, 1, 0, 0⟩, ⟨612, 792, none, []⟩⟩ = .ok st1 ∧
      st1.c.draws = [⟨some 1, ⟨2, 2, 1, 256, 371⟩⟩, ⟨some 1, ⟨2, 2, 1, 256, 371⟩⟩]) := by
  constructor
  · refine ⟨_, rfl, ?_⟩
    norm_num [loopBody, Creator.addPage, Creator.draw, setPosArgs, secondPageBare]
  · refine ⟨_, rfl, ?_⟩
    norm_num [loopBody, Creator.addPage, Creator.draw, setPosArgs, secondPageBare]

/-! ## Exact arithmetic and rounding -/

theorem resolveSizeRnd_id : resolveSizeRnd id = resolveSize := rfl

theorem toPointsRnd_id : toPointsRnd id = toPoints := rfl

theorem resolveRnd_id : resolveRnd id = resolve := rfl

theorem scaleArgsRnd_id : scaleArgsRnd id = scaleArgs := rfl

theorem setPosArgsRnd_id : setPosArgsRnd id = setPosArgs := rfl

/-- The value of `round64` at some known `float64` literals: `0.1`, the
constant `mm2pt`, a number that needs no rounding, a tie that goes to the even
neighbour on either side, and half the smallest subnormal. -/
theorem round64_samples :
    round64 (1 / 10) = 3602879701896397 / 36028797018963968 ∧
    round64 mm2pt = 6383054589973931 / 2251799813685248 ∧
    round64 (595 / 2) = 595 / 2 ∧
    round64 (9007199254740993) = 9007199254740992 ∧
    round64 (9007199254740995) = 9007199254740996 ∧
    round64 (-9007199254740995) = -9007199254740996 ∧
    round64 minSubnormal = minSubnormal ∧
    round64 (minSubnormal / 2) = 0 := by
  decide!

/-- With exact arithmetic, a stamp of natural size `imgWd > 0` by `imgHt > 0`
and at most one target dimension given, the two factors passed to `Scale` are
equal. -/
theorem scaleArgs_uniform (g : Globals) (imgWd imgHt : ℚ)
    (hWd : 0 < imgWd) (hHt : 0 < imgHt) (h0 : g.imgW = 0 ∨ g.imgH = 0) :
    (scaleArgs (resolve g imgWd imgHt) imgWd imgHt).1 =
        (scaleArgs (resolve g imgWd imgHt) imgWd imgHt).2 := by
  have hWd0 : imgWd ≠ 0 := ne_of_gt hWd
  have hHt0 : imgHt ≠ 0 := ne_of_gt hHt
  by_cases hW : g.imgW = 0
  · by_cases hH : g.imgH = 0
    · simp [scaleArgs, resolve, resolveSize, toPoints, hW, hH]
      field_simp
      ring
    · simp [scaleArgs, resolve, resolveSize, toPoints, hW, hH]
      field_simp
      ring
  · have hH : g.imgH = 0 := h0.resolve_left hW
    simp [scaleArgs, resolve, resolveSize, toPoints, hW, hH]
    field_simp
    ring

/-- With exact arithmetic, a stamp of natural size `imgWd > 0` by `imgHt > 0`
and non-negative targets, the resolved width and height are positive. -/
theorem resolveSize_pos (g : Globals) (imgWd imgHt : ℚ)
    (hWd : 0 < imgWd) (hHt : 0 < imgHt) (hW : 0 ≤ g.imgW) (hH : 0 ≤ g.imgH) :
    0 < (resolveSize g imgWd imgHt).imgW ∧ 0 < (resolveSize g imgWd imgHt).imgH := by
  by_cases hW0 : g.imgW = 0
  · by_cases hH0 : g.imgH = 0
    · simp only [resolveSize, hW0, hH0, and_self, if_true]
      norm_num
      positivity
    · have hHpos : 0 < g.imgH := lt_of_le_of_ne hH (Ne.symm hH0)
      simp only [resolveSize, hW0, hH0, and_false, if_false, if_true]
      exact ⟨by positivity, hHpos⟩
  · have hWpos : 0 < g.imgW := lt_of_le_of_ne hW (Ne.symm hW0)
    by_cases hH0 : g.imgH = 0
    · simp only [resolveSize, hW0, hH0, false_and, if_false, if_true]
      exact ⟨hWpos, by positivity⟩
    · have hHpos : 0 < g.imgH := lt_of_le_of_ne hH (Ne.symm hH0)
      simp only [resolveSize, hW0, hH0, false_and, if_false]
      exact ⟨hWpos, hHpos⟩

/-- Whatever the rounding, the width and the height are not both zero after
size resolution, and one of them is positive when neither target is
negative. -/
theorem resolveSizeRnd_not_both_zero (rnd : ℚ → ℚ) (g : Globals) (imgWd imgHt : ℚ) :
    ¬ ((resolveSizeRnd rnd g imgWd imgHt).imgW = 0 ∧
        (resolveSizeRnd rnd g imgWd imgHt).imgH = 0) ∧
    (0 ≤ g.imgW → 0 ≤ g.imgH →
      0 < (resolveSizeRnd rnd g imgWd imgHt).imgW ∨
      0 < (resolveSizeRnd rnd g imgWd imgHt).imgH) := by
  by_cases hW0 : g.imgW = 0
  · by_cases hH0 : g.imgH = 0
    · simp [resolveSizeRnd, hW0, hH0]
    · have e1 : (resolveSizeRnd rnd g imgWd imgHt).imgH = g.imgH := by
        simp [resolveSizeRnd, hW0, hH0]
      rw [e1]
      exact ⟨fun h => hH0 h.2, fun _ hH => Or.inr (lt_of_le_of_ne hH (Ne.symm hH0))⟩
  · have e1 : (resolveSizeRnd rnd g imgWd imgHt).imgW = g.imgW := by
      by_cases hH0 : g.imgH = 0 <;> simp [resolveSizeRnd, hW0, hH0]
    rw [e1]
    exact ⟨fun h => hW0 h.1, fun hW _ => Or.inl (lt_of_le_of_ne hW (Ne.symm hW0))⟩

/-- With exact arithmetic, for the anchors 1..9, non-negative offsets and stamp
size and a stamp that fits the page with its margin, the placed rectangle
lies on the page. -/
theorem setPosArgs_on_page (g : Globals) (w h : ℚ)
    (hp : 1 ≤ g.imgPos ∧ g.imgPos ≤ 9)
    (hox : 0 ≤ g.offsetX) (hoy : 0 ≤ g.offsetY) (hiw : 0 ≤ g.imgW) (hih : 0 ≤ g.imgH)
    (hfx : g.imgW + g.offsetX ≤ w) (hfy : g.imgH + g.offsetY ≤ h) :
    0 ≤ (setPosArgs g w h).1 ∧ (setPosArgs g w h).1 + g.imgW ≤ w ∧
    0 ≤ (setPosArgs g w h).2 ∧ (setPosArgs g w h).2 + g.imgH ≤ h := by
  obtain ⟨ox, oy, iw, ih, p, v, o⟩ := g
  obtain ⟨h1, h9⟩ := hp
  simp only at h1 h9 hox hoy hiw hih hfx hfy
  interval_cases p <;> simp [setPosArgs] <;> refine ⟨?_, ?_, ?_, ?_⟩ <;> linarith

/-! ## Properties of `round64` -/

theorem ilog2_spec : ∀ (fuel n : ℕ), 1 ≤ n → n ≤ fuel →
    2 ^ ilog2 fuel n ≤ n ∧ n < 2 ^ (ilog2 fuel n + 1) := by
  intro fuel
  induction fuel with
  | zero => intro n h1 h2; omega
  | succ fuel ih =>
    intro n h1 h2
    rw [ilog2]
    split_ifs with hn
    · have : n = 1 := by omega
      subst this
      simp
    · have hn2 : 2 ≤ n := by omega
      have hdiv1 : 1 ≤ n / 2 := by omega
      have hdiv2 : n / 2 ≤ fuel := by omega
      obtain ⟨hlo, hhi⟩ := ih (n / 2) hdiv1 hdiv2
      constructor
      · rw [pow_succ]
        omega
      · rw [pow_succ]
        omega

theorem two_zpow_split (k : ℤ) :
    (2 : ℚ) ^ k = ((2 ^ k.toNat : ℕ) : ℚ) / ((2 ^ (-k).toNat : ℕ) : ℚ) := by
  rcases le_or_lt 0 k with hk | hk
  · obtain ⟨m, rfl⟩ := Int.eq_ofNat_of_zero_le hk
    have h1 : (-(m : ℤ)).toNat = 0 := by omega
    rw [h1, Int.toNat_natCast, zpow_natCast]
    simp
  · obtain ⟨m, rfl⟩ := Int.exists_eq_neg_ofNat (le_of_lt hk)
    have h1 : (-(m : ℤ)).toNat = 0 := by omega
    rw [h1, neg_neg, Int.toNat_natCast, zpow_neg, zpow_natCast]
    simp

theorem floorLog2_spec (n d : ℕ) (hn : 1 ≤ n) (hd : 1 ≤ d) :
    (2 : ℚ) ^ floorLog2 n d ≤ (n : ℚ) / d ∧ (n : ℚ) / d < 2 ^ (floorLog2 n d + 1) := by
  obtain ⟨ha1, ha2⟩ := ilog2_spec n n hn le_rfl
  obtain ⟨hb1, hb2⟩ := ilog2_spec d d hd le_rfl
  have hdpos : (0 : ℚ) < d := by exact_mod_cast hd
  have hnpos : (0 : ℚ) < n := by exact_mod_cast hn
  have ha1q : (2 : ℚ) ^ (ilog2 n n : ℤ) ≤ n := by
    rw [zpow_natCast]; exact_mod_cast ha1
  have ha2q : (n : ℚ) < 2 ^ ((ilog2 n n : ℤ) + 1) := by
    rw [show ((ilog2 n n : ℤ) + 1) = ((ilog2 n n + 1 : ℕ) : ℤ) by push_cast; ring, zpow_natCast]
    exact_mod_cast ha2
  have hb1q : (2 : ℚ) ^ (ilog2 d d : ℤ) ≤ d := by
    rw [zpow_natCast]; exact_mod_cast hb1
  have hb2q : (d : ℚ) < 2 ^ ((ilog2 d d : ℤ) + 1) := by
    rw [show ((ilog2 d d : ℤ) + 1) = ((ilog2 d d + 1 : ℕ) : ℤ) by push_cast; ring, zpow_natCast]
    exact_mod_cast hb2
  have h2 : (0 : ℚ) < 2 := by norm_num
  unfold floorLog2
  simp only
  set k0 : ℤ := (ilog2 n n : ℤ) - (ilog2 d d : ℤ) with hk0
  have hsplit := two_zpow_split k0
  have hp1 : (0 : ℚ) < ((2 ^ k0.toNat : ℕ) : ℚ) := by positivity
  have hp2 : (0 : ℚ) < ((2 ^ (-k0).toNat : ℕ) : ℚ) := by positivity
  -- upper bound n / d < 2 ^ (k0 + 1), lower bound 2 ^ (k0 - 1) ≤ n / d
  have hup : (n : ℚ) / d < 2 ^ (k0 + 1) := by
    rw [div_lt_iff₀ hdpos]
    have : (2 : ℚ) ^ (k0 + 1) * 2 ^ (ilog2 d d : ℤ) = 2 ^ ((ilog2 n n : ℤ) + 1) := by
      rw [← zpow_add₀ (by norm_num : (2 : ℚ) ≠ 0)]
      congr 1
      omega
    calc (n : ℚ) < 2 ^ ((ilog2 n n : ℤ) + 1) := ha2q
      _ = 2 ^ (k0 + 1) * 2 ^ (ilog2 d d : ℤ) := this.symm
      _ ≤ 2 ^ (k0 + 1) * d := by
          apply mul_le_mul_of_nonneg_left hb1q (by positivity)
  have hlo : (2 : ℚ) ^ (k0 - 1) ≤ (n : ℚ) / d := by
    rw [le_div_iff₀ hdpos]
    have : (2 : ℚ) ^ (k0 - 1) * 2 ^ ((ilog2 d d : ℤ) + 1) = 2 ^ (ilog2 n n : ℤ) := by
      rw [← zpow_add₀ (by norm_num : (2 : ℚ) ≠ 0)]
      congr 1
      omega
    calc (2 : ℚ) ^ (k0 - 1) * d ≤ 2 ^ (k0 - 1) * 2 ^ ((ilog2 d d : ℤ) + 1) := by
          apply mul_le_mul_of_nonneg_left hb2q.le (by positivity)
      _ = 2 ^ (ilog2 n n : ℤ) := this
      _ ≤ n := ha1q
  have htest : (d * 2 ^ k0.toNat ≤ n * 2 ^ (-k0).toNat) ↔ (2 : ℚ) ^ k0 ≤ (n : ℚ) / d := by
    rw [hsplit, le_div_iff₀ hdpos, div_mul_eq_mul_div, div_le_iff₀ hp2]
    constructor
    · intro h
      have : ((d * 2 ^ k0.toNat : ℕ) : ℚ) ≤ ((n * 2 ^ (-k0).toNat : ℕ) : ℚ) := by exact_mod_cast h
      push_cast at this ⊢
      linarith
    · intro h
      have : ((d * 2 ^ k0.toNat : ℕ) : ℚ) ≤ ((n * 2 ^ (-k0).toNat : ℕ) : ℚ) := by
        push_cast at h ⊢
        linarith
      exact_mod_cast this
  split_ifs with ht
  · exact ⟨htest.mp ht, hup⟩
  · refine ⟨hlo, ?_⟩
    rw [sub_add_cancel]
    exact lt_of_not_le (fun h => ht (htest.mpr h))

theorem floorLog2_abs (q : ℚ) (hq : q ≠ 0) :
    (2 : ℚ) ^ floorLog2 q.num.natAbs q.den ≤ |q| ∧
    |q| < 2 ^ (floorLog2 q.num.natAbs q.den + 1) := by
  have hnum : q.num ≠ 0 := Rat.num_ne_zero.mpr hq
  have hn : 1 ≤ q.num.natAbs := Nat.one_le_iff_ne_zero.mpr (Int.natAbs_ne_zero.mpr hnum)
  have hd : 1 ≤ q.den := q.den_pos
  have habs : |q| = (q.num.natAbs : ℚ) / q.den := by
    conv_lhs => rw [← Rat.num_div_den q]
    rw [abs_div, Nat.cast_natAbs, Int.cast_abs]
    congr 1
    exact abs_of_pos (by exact_mod_cast q.den_pos)
  rw [habs]
  exact floorLog2_spec _ _ hn hd

theorem roundHalfEven_floor_le (y : ℚ) : ⌊y⌋ ≤ roundHalfEven y := by
  unfold roundHalfEven
  split_ifs <;> omega

theorem roundHalfEven_le_floor (y : ℚ) : roundHalfEven y ≤ ⌊y⌋ + 1 := by
  unfold roundHalfEven
  split_ifs <;> omega

theorem roundHalfEven_err (y : ℚ) : |(roundHalfEven y : ℚ) - y| ≤ 1 / 2 := by
  have h1 := Int.fract_nonneg y
  have h2 := Int.fract_lt_one y
  have h3 : y = ⌊y⌋ + Int.fract y := (Int.floor_add_fract y).symm
  unfold roundHalfEven
  rw [abs_le]
  split_ifs with ha hb hc
  · constructor <;> linarith
  · push_cast; constructor <;> linarith
  · constructor <;> linarith
  · push_cast; constructor <;> linarith

theorem roundHalfEven_intCast (j : ℤ) : roundHalfEven (j : ℚ) = j := by
  unfold roundHalfEven
  simp

theorem roundHalfEven_mono {y z : ℚ} (h : y ≤ z) : roundHalfEven y ≤ roundHalfEven z := by
  have hfl : ⌊y⌋ ≤ ⌊z⌋ := Int.floor_mono h
  rcases lt_or_eq_of_le hfl with hlt | heq
  · calc roundHalfEven y ≤ ⌊y⌋ + 1 := roundHalfEven_le_floor y
      _ ≤ ⌊z⌋ := hlt
      _ ≤ roundHalfEven z := roundHalfEven_floor_le z
  · have hy : y = ⌊y⌋ + Int.fract y := (Int.floor_add_fract y).symm
    have hz : z = ⌊z⌋ + Int.fract z := (Int.floor_add_fract z).symm
    have hfr : Int.fract y ≤ Int.fract z := by
      have : ((⌊y⌋ : ℤ) : ℚ) = ((⌊z⌋ : ℤ) : ℚ) := by rw [heq]
      linarith
    unfold roundHalfEven
    rw [heq]
    split_ifs <;> first | omega | (exfalso; linarith)

theorem roundHalfEven_le_of_le_intCast {y : ℚ} {j : ℤ} (h : y ≤ j) : roundHalfEven y ≤ j := by
  have := roundHalfEven_mono h
  rwa [roundHalfEven_intCast] at this

theorem roundHalfEven_ge_of_intCast_le {y : ℚ} {j : ℤ} (h : (j : ℚ) ≤ y) : j ≤ roundHalfEven y := by
  have := roundHalfEven_mono h
  rwa [roundHalfEven_intCast] at this

theorem two_zpow_pos (k : ℤ) : (0 : ℚ) < 2 ^ k := zpow_pos (by norm_num) k

theorem round64_zero : round64 0 = 0 := by
  simp [round64]

theorem round64_nonneg {q : ℚ} (hq : 0 ≤ q) : 0 ≤ round64 q := by
  unfold round64
  split_ifs with h0
  · exact le_refl _
  · have hy : ((0 : ℤ) : ℚ) ≤ q / 2 ^ exponent64 q := by
      rw [Int.cast_zero]
      exact div_nonneg hq (two_zpow_pos _).le
    have := roundHalfEven_ge_of_intCast_le hy
    have hc : (0 : ℚ) ≤ (roundHalfEven (q / 2 ^ exponent64 q) : ℚ) := by exact_mod_cast this
    exact mul_nonneg hc (two_zpow_pos _).le

theorem exponent64_ge (q : ℚ) : -1074 ≤ exponent64 q := le_max_right _ _

theorem exponent64_ge_log (q : ℚ) : floorLog2 q.num.natAbs q.den - 52 ≤ exponent64 q :=
  le_max_left _ _

theorem exponent64_mono {p q : ℚ} (hp : 0 < p) (hpq : p ≤ q) : exponent64 p ≤ exponent64 q := by
  have hq : 0 < q := lt_of_lt_of_le hp hpq
  obtain ⟨hp1, _⟩ := floorLog2_abs p (ne_of_gt hp)
  obtain ⟨_, hq2⟩ := floorLog2_abs q (ne_of_gt hq)
  rw [abs_of_pos hp] at hp1
  rw [abs_of_pos hq] at hq2
  have hlt : (2 : ℚ) ^ floorLog2 p.num.natAbs p.den < 2 ^ (floorLog2 q.num.natAbs q.den + 1) :=
    lt_of_le_of_lt hp1 (lt_of_le_of_lt hpq hq2)
  have hk := (zpow_lt_zpow_iff_right₀ (by norm_num : (1 : ℚ) < 2)).mp hlt
  unfold exponent64
  exact max_le_max (by omega) (le_refl _)

theorem round64_mono_nonneg {p q : ℚ} (hp : 0 ≤ p) (hpq : p ≤ q) : round64 p ≤ round64 q := by
  rcases eq_or_lt_of_le hp with hp0 | hppos
  · rw [← hp0, round64_zero]
    exact round64_nonneg (le_trans hp hpq)
  have hqpos : 0 < q := lt_of_lt_of_le hppos hpq
  have hexp := exponent64_mono hppos hpq
  unfold round64
  rw [if_neg (ne_of_gt hppos), if_neg (ne_of_gt hqpos)]
  rcases eq_or_lt_of_le hexp with heq | hlt
  · rw [heq]
    apply mul_le_mul_of_nonneg_right _ (two_zpow_pos _).le
    have hy : p / 2 ^ exponent64 q ≤ q / 2 ^ exponent64 q :=
      div_le_div_of_nonneg_right hpq (two_zpow_pos _).le
    exact_mod_cast roundHalfEven_mono hy
  · -- the exponent grows: compare both sides with a power of two
    obtain ⟨_, hp2⟩ := floorLog2_abs p (ne_of_gt hppos)
    obtain ⟨hq1, _⟩ := floorLog2_abs q (ne_of_gt hqpos)
    rw [abs_of_pos hppos] at hp2
    rw [abs_of_pos hqpos] at hq1
    have hep := exponent64_ge_log p
    have heq' : exponent64 q = floorLog2 q.num.natAbs q.den - 52 := by
      have h1 := exponent64_ge p
      unfold exponent64 at hlt ⊢
      rcases max_cases (floorLog2 q.num.natAbs q.den - 52) (-1074) with ⟨h, _⟩ | ⟨h, _⟩
      · exact h
      · rw [h] at hlt
        unfold exponent64 at h1
        omega
    -- left side is at most 2 ^ (exponent64 p + 53)
    have hyp : p / 2 ^ exponent64 p ≤ ((2 ^ 53 : ℤ) : ℚ) := by
      rw [div_le_iff₀ (two_zpow_pos _)]
      have : (2 : ℚ) ^ (floorLog2 p.num.natAbs p.den + 1) ≤ 2 ^ (53 + exponent64 p) :=
        zpow_le_zpow_right₀ (by norm_num) (by omega)
      have hsum : (2 : ℚ) ^ (53 + exponent64 p) = (2 : ℚ) ^ (53 : ℤ) * 2 ^ exponent64 p :=
        zpow_add₀ (by norm_num : (2 : ℚ) ≠ 0) _ _
      have h53 : ((2 ^ 53 : ℤ) : ℚ) = (2 : ℚ) ^ (53 : ℤ) := by norm_num
      rw [h53]
      linarith
    have hmp : (roundHalfEven (p / 2 ^ exponent64 p) : ℚ) ≤ ((2 ^ 53 : ℤ) : ℚ) := by
      exact_mod_cast roundHalfEven_le_of_le_intCast hyp
    have hyq : ((2 ^ 52 : ℤ) : ℚ) ≤ q / 2 ^ exponent64 q := by
      rw [le_div_iff₀ (two_zpow_pos _)]
      have h52 : ((2 ^ 52 : ℤ) : ℚ) = (2 : ℚ) ^ (52 : ℤ) := by norm_num
      rw [h52, ← zpow_add₀ (by norm_num : (2 : ℚ) ≠ 0), heq']
      rw [show (52 : ℤ) + (floorLog2 q.num.natAbs q.den - 52) = floorLog2 q.num.natAbs q.den by ring]
      exact hq1
    have hmq : ((2 ^ 52 : ℤ) : ℚ) ≤ (roundHalfEven (q / 2 ^ exponent64 q) : ℚ) := by
      exact_mod_cast roundHalfEven_ge_of_intCast_le hyq
    have hpow : (2 : ℚ) ^ exponent64 p * 2 ≤ 2 ^ exponent64 q := by
      have : (2 : ℚ) ^ (exponent64 p + 1) ≤ 2 ^ exponent64 q :=
        zpow_le_zpow_right₀ (by norm_num) (by omega)
      rwa [zpow_add₀ (by norm_num : (2 : ℚ) ≠ 0), zpow_one] at this
    have hpp := two_zpow_pos (exponent64 p)
    have hqq := two_zpow_pos (exponent64 q)
    calc (roundHalfEven (p / 2 ^ exponent64 p) : ℚ) * 2 ^ exponent64 p
        ≤ ((2 ^ 53 : ℤ) : ℚ) * 2 ^ exponent64 p := mul_le_mul_of_nonneg_right hmp hpp.le
      _ = ((2 ^ 52 : ℤ) : ℚ) * (2 ^ exponent64 p * 2) := by norm_num; ring
      _ ≤ ((2 ^ 52 : ℤ) : ℚ) * 2 ^ exponent64 q := mul_le_mul_of_nonneg_left hpow (by norm_num)
      _ ≤ (roundHalfEven (q / 2 ^ exponent64 q) : ℚ) * 2 ^ exponent64 q :=
          mul_le_mul_of_nonneg_right hmq hqq.le

theorem round64_abs_err {q : ℚ} (hq : q ≠ 0) :
    |round64 q - q| ≤ 2 ^ exponent64 q / 2 := by
  have hpos := two_zpow_pos (exponent64 q)
  have herr := roundHalfEven_err (q / 2 ^ exponent64 q)
  unfold round64
  rw [if_neg hq]
  have hq' : q = q / 2 ^ exponent64 q * 2 ^ exponent64 q := by
    field_simp
  have : (roundHalfEven (q / 2 ^ exponent64 q) : ℚ) * 2 ^ exponent64 q - q =
      ((roundHalfEven (q / 2 ^ exponent64 q) : ℚ) - q / 2 ^ exponent64 q) * 2 ^ exponent64 q := by
    rw [sub_mul]
    congr 1
  rw [this, abs_mul, abs_of_pos hpos]
  calc |(roundHalfEven (q / 2 ^ exponent64 q) : ℚ) - q / 2 ^ exponent64 q| * 2 ^ exponent64 q
      ≤ 1 / 2 * 2 ^ exponent64 q := mul_le_mul_of_nonneg_right herr hpos.le
    _ = 2 ^ exponent64 q / 2 := by ring

/-- In the normal range the relative error of `round64` is at most `2 ^ (-53)`. -/
theorem round64_rel_err {q : ℚ} (hq : (2 : ℚ) ^ (-1022 : ℤ) ≤ |q|) :
    |round64 q - q| ≤ |q| / 2 ^ 53 := by
  have hq0 : q ≠ 0 := by
    intro h
    rw [h, abs_zero] at hq
    exact absurd hq (not_le.mpr (two_zpow_pos _))
  obtain ⟨h1, h2⟩ := floorLog2_abs q hq0
  have hk : (-1022 : ℤ) < floorLog2 q.num.natAbs q.den + 1 :=
    (zpow_lt_zpow_iff_right₀ (by norm_num : (1 : ℚ) < 2)).mp (lt_of_le_of_lt hq h2)
  have he : exponent64 q = floorLog2 q.num.natAbs q.den - 52 := by
    unfold exponent64
    exact max_eq_left (by omega)
  have hsplit : (2 : ℚ) ^ floorLog2 q.num.natAbs q.den = 2 ^ exponent64 q * 2 ^ (52 : ℤ) := by
    rw [← zpow_add₀ (by norm_num : (2 : ℚ) ≠ 0), he]
    congr 1
    ring
  have h52 : (2 : ℚ) ^ (52 : ℤ) = 2 ^ 52 := by norm_num
  have := round64_abs_err hq0
  have hpos := two_zpow_pos (exponent64 q)
  rw [hsplit, h52] at h1
  calc |round64 q - q| ≤ 2 ^ exponent64 q / 2 := this
    _ = (2 ^ exponent64 q * 2 ^ 52) / 2 ^ 53 := by field_simp; ring
    _ ≤ |q| / 2 ^ 53 := div_le_div_of_nonneg_right h1 (by positivity)

/-- The error of `round64` in any range. -/
theorem round64_err (q : ℚ) : |round64 q - q| ≤ |q| / 2 ^ 53 + 2 ^ (-1075 : ℤ) := by
  by_cases hq0 : q = 0
  · rw [hq0, round64_zero]
    simp only [sub_self, abs_zero, zero_div, zero_add]
    exact (two_zpow_pos _).le
  · obtain ⟨h1, h2⟩ := floorLog2_abs q hq0
    rcases max_cases (floorLog2 q.num.natAbs q.den - 52) (-1074) with ⟨h, hle⟩ | ⟨h, hle⟩
    · have hq : (2 : ℚ) ^ (-1022 : ℤ) ≤ |q| := by
        refine le_trans ?_ h1
        exact zpow_le_zpow_right₀ (by norm_num) (by omega)
      exact le_trans (round64_rel_err hq) (le_add_of_nonneg_right (two_zpow_pos (-1075)).le)
    · have he : exponent64 q = -1074 := h
      have := round64_abs_err hq0
      rw [he] at this
      have hval : (2 : ℚ) ^ (-1074 : ℤ) / 2 = 2 ^ (-1075 : ℤ) := by
        rw [show (-1075 : ℤ) = -1074 + -1 by norm_num, zpow_add₀ (by norm_num : (2 : ℚ) ≠ 0)]
        rw [zpow_neg_one, div_eq_mul_inv]
      rw [hval] at this
      have hp : (0 : ℚ) ≤ |q| / 2 ^ 53 := by positivity
      exact le_trans this (le_add_of_nonneg_left hp)

theorem round64_bounds {q : ℚ} (hq : (2 : ℚ) ^ (-1022 : ℤ) ≤ q) :
    q * (1 - 1 / 2 ^ 53) ≤ round64 q ∧ round64 q ≤ q * (1 + 1 / 2 ^ 53) := by
  have hpos : 0 < q := lt_of_lt_of_le (two_zpow_pos _) hq
  have h := round64_rel_err (q := q) (by rwa [abs_of_pos hpos])
  rw [abs_of_pos hpos, abs_le] at h
  constructor
  · have : q * (1 - 1 / 2 ^ 53) = q - q / 2 ^ 53 := by ring
    linarith [h.1]
  · have : q * (1 + 1 / 2 ^ 53) = q + q / 2 ^ 53 := by ring
    linarith [h.2]

theorem round64_upper {q : ℚ} (hq : 0 ≤ q) :
    round64 q ≤ q * (1 + 1 / 2 ^ 53) + 2 ^ (-1075 : ℤ) := by
  have h := round64_err q
  rw [abs_of_nonneg hq, abs_le] at h
  have : q * (1 + 1 / 2 ^ 53) = q + q / 2 ^ 53 := by ring
  rw [this]
  linarith [h.2]

theorem four_mul_two_zpow : 4 * (2 : ℚ) ^ (-1075 : ℤ) = 2 ^ (-1073 : ℤ) := by
  rw [show (-1073 : ℤ) = 2 + -1075 by norm_num, zpow_add₀ (by norm_num : (2 : ℚ) ≠ 0)]
  norm_num

/-- Arithmetic behind the far anchors: two roundings, each off by at most a
relative `2 ^ (-53)` plus `η`, move the far edge by at most `L / 2 ^ 51 + 4 η`. -/
theorem far_edge_bound (L s o a f η : ℚ) (ho : 0 ≤ o) (hs : 0 ≤ s) (hfit : s + o ≤ L)
    (hη : 0 ≤ η) (ha : a ≤ (L - s) * (1 + 1 / 2 ^ 53) + η)
    (hf : f ≤ (a - o) * (1 + 1 / 2 ^ 53) + η) :
    f + s ≤ L + (L / 2 ^ 51 + 4 * η) := by
  have hL : 0 ≤ L := by linarith
  have h1 : f ≤ ((L - s) * (1 + 1 / 2 ^ 53) + η - o) * (1 + 1 / 2 ^ 53) + η := by
    have : (a - o) * (1 + 1 / 2 ^ 53) ≤
        ((L - s) * (1 + 1 / 2 ^ 53) + η - o) * (1 + 1 / 2 ^ 53) :=
      mul_le_mul_of_nonneg_right (by linarith) (by norm_num)
    linarith
  norm_num at h1 ⊢
  linarith

/-- Arithmetic behind the centred anchors. -/
theorem centre_edge_bound (L s a c η : ℚ) (hs : 0 ≤ s) (hfit : s ≤ L)
    (hη : 0 ≤ η) (ha : a ≤ (L - s) * (1 + 1 / 2 ^ 53) + η)
    (hc : c ≤ a / 2 * (1 + 1 / 2 ^ 53) + η) :
    c + s ≤ L + (L / 2 ^ 51 + 4 * η) := by
  have hL : 0 ≤ L := by linarith
  have h1 : c ≤ ((L - s) * (1 + 1 / 2 ^ 53) + η) / 2 * (1 + 1 / 2 ^ 53) + η := by
    have : a / 2 * (1 + 1 / 2 ^ 53) ≤
        ((L - s) * (1 + 1 / 2 ^ 53) + η) / 2 * (1 + 1 / 2 ^ 53) :=
      mul_le_mul_of_nonneg_right (by linarith) (by norm_num)
    linarith
  norm_num at h1 ⊢
  linarith

/-- One axis of the placement under `round64`: the near, the centred and the
far position of a stamp of size `s` with margin `o` on a page of length
`L`. -/
theorem axis_round64 (L s o : ℚ) (ho : 0 ≤ o) (hs : 0 ≤ s) (hfit : s + o ≤ L)
    (hro : round64 o = o) :
    (0 ≤ o ∧ o + s ≤ L + (L / 2 ^ 51 + 2 ^ (-1073 : ℤ))) ∧
    (0 ≤ round64 (round64 (L - s) / 2) ∧
      round64 (round64 (L - s) / 2) + s ≤ L + (L / 2 ^ 51 + 2 ^ (-1073 : ℤ))) ∧
    (0 ≤ round64 (round64 (L - s) - o) ∧
      round64 (round64 (L - s) - o) + s ≤ L + (L / 2 ^ 51 + 2 ^ (-1073 : ℤ))) := by
  have hη := (two_zpow_pos (-1075)).le
  have hη3 := (two_zpow_pos (-1073)).le
  have hL : 0 ≤ L := by linarith
  have hLs : 0 ≤ L - s := by linarith
  have ha0 : 0 ≤ round64 (L - s) := round64_nonneg hLs
  have hao : o ≤ round64 (L - s) := by
    have := round64_mono_nonneg ho (by linarith : o ≤ L - s)
    rwa [hro] at this
  have ha := round64_upper hLs
  rw [← four_mul_two_zpow]
  refine ⟨⟨ho, ?_⟩, ⟨?_, ?_⟩, ⟨?_, ?_⟩⟩
  · have : 0 ≤ L / 2 ^ 51 := by positivity
    linarith
  · exact round64_nonneg (by linarith)
  · exact centre_edge_bound L s _ _ _ hs (by linarith) hη ha
      (round64_upper (by linarith))
  · exact round64_nonneg (by linarith)
  · exact far_edge_bound L s o _ _ _ ho hs hfit hη ha (round64_upper (by linarith))

theorem round64_mm2pt : round64 mm2pt = 6383054589973931 / 2251799813685248 := by
  decide!

theorem round64_mm2pt_pos : 0 < round64 mm2pt := by
  rw [round64_mm2pt]
  norm_num

theorem minSubnormal_pos : 0 < minSubnormal := by
  decide!

theorem round64_minSubnormal : round64 minSubnormal = minSubnormal := by
  decide!

/-- A positive `float64` number of millimetres is still positive in points. -/
theorem round64_mul_mm2pt_pos {x : ℚ} (hx : minSubnormal ≤ x) :
    0 < round64 (x * round64 mm2pt) := by
  have hpos := minSubnormal_pos
  have hm : 1 ≤ round64 mm2pt := by
    rw [round64_mm2pt]
    norm_num
  have hle : minSubnormal ≤ x * round64 mm2pt := by
    calc minSubnormal ≤ x := hx
      _ = x * 1 := (mul_one x).symm
      _ ≤ x * round64 mm2pt := mul_le_mul_of_nonneg_left hm (le_trans hpos.le hx)
  have := round64_mono_nonneg hpos.le hle
  rw [round64_minSubnormal] at this
  exact lt_of_lt_of_le hpos this

/-- Under `round64`, for non-negative targets and a stamp of positive natural
size, no resolved dimension and no scale factor is negative. -/
theorem resolveRnd_round64_nonneg (g : Globals) (imgWd imgHt : ℚ)
    (hWd : 0 < imgWd) (hHt : 0 < imgHt) (hW : 0 ≤ g.imgW) (hH : 0 ≤ g.imgH) :
    0 ≤ (resolveSizeRnd round64 g imgWd imgHt).imgW ∧
    0 ≤ (resolveSizeRnd round64 g imgWd imgHt).imgH ∧
    0 ≤ (resolveRnd round64 g imgWd imgHt).imgW ∧
    0 ≤ (resolveRnd round64 g imgWd imgHt).imgH ∧
    0 ≤ (scaleArgsRnd round64 (resolveRnd round64 g imgWd imgHt) imgWd imgHt).1 ∧
    0 ≤ (scaleArgsRnd round64 (resolveRnd round64 g imgWd imgHt) imgWd imgHt).2 := by
  have hm := round64_mm2pt_pos.le
  have hr1 : 0 ≤ round64 (imgWd / imgHt) := round64_nonneg (div_nonneg hWd.le hHt.le)
  have hr2 : 0 ≤ round64 (imgHt / imgWd) := round64_nonneg (div_nonneg hHt.le hWd.le)
  have key : 0 ≤ (resolveSizeRnd round64 g imgWd imgHt).imgW ∧
      0 ≤ (resolveSizeRnd round64 g imgWd imgHt).imgH := by
    by_cases hW0 : g.imgW = 0
    · by_cases hH0 : g.imgH = 0
      · simp only [resolveSizeRnd, hW0, hH0, and_self, if_true]
        norm_num
        exact round64_nonneg (mul_nonneg hr2 (by norm_num))
      · simp only [resolveSizeRnd, hW0, hH0, and_false, if_false, if_true]
        exact ⟨round64_nonneg (mul_nonneg hr1 hH), hH⟩
    · by_cases hH0 : g.imgH = 0
      · simp only [resolveSizeRnd, hW0, hH0, false_and, if_false, if_true]
        exact ⟨hW, round64_nonneg (mul_nonneg hr2 hW)⟩
      · simp only [resolveSizeRnd, hW0, hH0, false_and, if_false]
        exact ⟨hW, hH⟩
  obtain ⟨kW, kH⟩ := key
  have pW : 0 ≤ (resolveRnd round64 g imgWd imgHt).imgW := round64_nonneg (mul_nonneg kW hm)
  have pH : 0 ≤ (resolveRnd round64 g imgWd imgHt).imgH := round64_nonneg (mul_nonneg kH hm)
  exact ⟨kW, kH, pW, pH, round64_nonneg (div_nonneg pW hWd.le),
    round64_nonneg (div_nonneg pH hHt.le)⟩

/-- Under `round64`, when each target is 0 or at least the smallest positive
`float64`, the resolved width and height in points are not both zero. -/
theorem resolveRnd_round64_one_pos (g : Globals) (imgWd imgHt : ℚ)
    (hW : g.imgW = 0 ∨ minSubnormal ≤ g.imgW) (hH : g.imgH = 0 ∨ minSubnormal ≤ g.imgH) :
    0 < (resolveRnd round64 g imgWd imgHt).imgW ∨
    0 < (resolveRnd round64 g imgWd imgHt).imgH := by
  have hpos := minSubnormal_pos
  have h50 : minSubnormal ≤ 50 := by decide!
  by_cases hW0 : g.imgW = 0
  · by_cases hH0 : g.imgH = 0
    · left
      have e : (resolveRnd round64 g imgWd imgHt).imgW = round64 (50 * round64 mm2pt) := by
        simp [resolveRnd, toPointsRnd, resolveSizeRnd, hW0, hH0]
      rw [e]
      exact round64_mul_mm2pt_pos h50
    · right
      have e : (resolveRnd round64 g imgWd imgHt).imgH = round64 (g.imgH * round64 mm2pt) := by
        simp [resolveRnd, toPointsRnd, resolveSizeRnd, hW0, hH0]
      rw [e]
      exact round64_mul_mm2pt_pos (hH.resolve_left hH0)
  · left
    have e : (resolveRnd round64 g imgWd imgHt).imgW = round64 (g.imgW * round64 mm2pt) := by
      by_cases hH0 : g.imgH = 0 <;> simp [resolveRnd, toPointsRnd, resolveSizeRnd, hW0, hH0]
    rw [e]
    exact round64_mul_mm2pt_pos (hW.resolve_left hW0)

/-- Under `round64`, for the anchors 1..9, non-negative offsets that are
`float64` numbers, a non-negative stamp size and a stamp that fits the page with
its margin: the position is not negative, and the far edge of the stamp passes
the edge of the page by at most a rounding error. -/
theorem setPosArgsRnd_round64_on_page (g : Globals) (w h : ℚ)
    (hp : 1 ≤ g.imgPos ∧ g.imgPos ≤ 9)
    (hox : 0 ≤ g.offsetX) (hoy : 0 ≤ g.offsetY) (hiw : 0 ≤ g.imgW) (hih : 0 ≤ g.imgH)
    (hfx : g.imgW + g.offsetX ≤ w) (hfy : g.imgH + g.offsetY ≤ h)
    (hrx : round64 g.offsetX = g.offsetX) (hry : round64 g.offsetY = g.offsetY) :
    0 ≤ (setPosArgsRnd round64 g w h).1 ∧
    (setPosArgsRnd round64 g w h).1 + g.imgW ≤ w + (w / 2 ^ 51 + 2 ^ (-1073 : ℤ)) ∧
    0 ≤ (setPosArgsRnd round64 g w h).2 ∧
    (setPosArgsRnd round64 g w h).2 + g.imgH ≤ h + (h / 2 ^ 51 + 2 ^ (-1073 : ℤ)) := by
  obtain ⟨⟨x1, x2⟩, ⟨x3, x4⟩, ⟨x5, x6⟩⟩ := axis_round64 w g.imgW g.offsetX hox hiw hfx hrx
  obtain ⟨⟨y1, y2⟩, ⟨y3, y4⟩, ⟨y5, y6⟩⟩ := axis_round64 h g.imgH g.offsetY hoy hih hfy hry
  obtain ⟨ox, oy, iw, ih, p, v, o⟩ := g
  obtain ⟨h1, h9⟩ := hp
  simp only at h1 h9 x1 x2 x3 x4 x5 x6 y1 y2 y3 y4 y5 y6
  interval_cases p <;> simp only [setPosArgsRnd, Int.reduceEq, if_true, if_false] <;>
    first
      | exact ⟨x1, x2, y1, y2⟩ | exact ⟨x3, x4, y1, y2⟩ | exact ⟨x5, x6, y1, y2⟩
      | exact ⟨x1, x2, y3, y4⟩ | exact ⟨x3, x4, y3, y4⟩ | exact ⟨x5, x6, y3, y4⟩
      | exact ⟨x1, x2, y5, y6⟩ | exact ⟨x3, x4, y5, y6⟩ | exact ⟨x5, x6, y5, y6⟩

theorem round64_factor {q : ℚ} (hq : 1 / 2 ^ 200 ≤ q) :
    ∃ ρ : ℚ, round64 q = q * ρ ∧ 1 - 1 / 2 ^ 53 ≤ ρ ∧ ρ ≤ 1 + 1 / 2 ^ 53 := by
  have hT : (2 : ℚ) ^ (-1022 : ℤ) ≤ 1 / 2 ^ 200 := by
    have e : (1 : ℚ) / 2 ^ 200 = 2 ^ (-200 : ℤ) := by
      rw [show (-200 : ℤ) = -((200 : ℕ) : ℤ) by norm_num, zpow_neg, zpow_natCast, one_div]
    rw [e]
    exact zpow_le_zpow_right₀ (by norm_num) (by norm_num)
  have hpos : 0 < q := lt_of_lt_of_le (by positivity) hq
  obtain ⟨h1, h2⟩ := round64_bounds (le_trans hT hq)
  refine ⟨round64 q / q, ?_, ?_, ?_⟩
  · field_simp
  · rw [le_div_iff₀ hpos]
    linarith
  · rw [div_le_iff₀ hpos]
    linarith

theorem mul_lower {x y c d : ℚ} (hc : 0 ≤ c) (hd : 0 ≤ d) (hx : c ≤ x) (hy : d ≤ y) :
    c * d ≤ x * y :=
  mul_le_mul hx hy hd (le_trans hc hx)

theorem mul_between {x y lo hi : ℚ} (hlo : 0 ≤ lo) (hx : lo ≤ x ∧ x ≤ hi)
    (hy : lo ≤ y ∧ y ≤ hi) : lo * lo ≤ x * y ∧ x * y ≤ hi * hi :=
  ⟨mul_le_mul hx.1 hy.1 hlo (le_trans hlo hx.1),
    mul_le_mul hx.2 hy.2 (le_trans hlo hy.1) (le_trans hlo (le_trans hx.1 hx.2))⟩

/-- The scale factor of the dimension that was given (`t` millimetres, natural
size `b`) against the scale factor of the dimension inferred from it (natural
size `a`): two roundings against four, so they agree to a relative
`2 ^ (-50)`. -/
theorem scale_given_inferred (a b t : ℚ) (ha : 1 ≤ a ∧ a ≤ 2 ^ 32)
    (hb : 1 ≤ b ∧ b ≤ 2 ^ 32) (ht : 1 / 2 ^ 64 ≤ t ∧ t ≤ 2 ^ 64) :
    |round64 (round64 (round64 (round64 (a / b) * t) * round64 mm2pt) / a) -
        round64 (round64 (t * round64 mm2pt) / b)| ≤
      round64 (round64 (t * round64 mm2pt) / b) / 2 ^ 50 ∧
    |round64 (round64 (round64 (round64 (a / b) * t) * round64 mm2pt) / a) -
        round64 (round64 (t * round64 mm2pt) / b)| ≤
      round64 (round64 (round64 (round64 (a / b) * t) * round64 mm2pt) / a) / 2 ^ 50 := by
  obtain ⟨ha1, ha2⟩ := ha
  obtain ⟨hb1, hb2⟩ := hb
  obtain ⟨ht1, ht2⟩ := ht
  have hapos : 0 < a := by linarith
  have hbpos : 0 < b := by linarith
  have htpos : 0 < t := lt_of_lt_of_le (by positivity) ht1
  rw [round64_mm2pt]
  set m : ℚ := 6383054589973931 / 2251799813685248 with hm
  have hm1 : (1 : ℚ) ≤ m := by rw [hm]; norm_num
  have hlo : (0 : ℚ) ≤ 1 - 1 / 2 ^ 53 := by norm_num
  have hhalf : (1 : ℚ) / 2 ≤ 1 - 1 / 2 ^ 53 := by norm_num
  -- the inferred dimension
  have q1 : (1 : ℚ) / 2 ^ 32 ≤ a / b := by
    rw [le_div_iff₀ hbpos]
    linarith
  obtain ⟨ρ1, e1, l1, u1⟩ := round64_factor (le_trans (by norm_num) q1)
  have q2 : (1 : ℚ) / 2 ^ 32 * (1 / 2) * (1 / 2 ^ 64) ≤ a / b * ρ1 * t :=
    mul_lower (by norm_num) (by norm_num)
      (mul_lower (by norm_num) (by norm_num) q1 (le_trans hhalf l1)) ht1
  obtain ⟨ρ2, e2, l2, u2⟩ := round64_factor (le_trans (by norm_num) q2)
  have q3 : (1 : ℚ) / 2 ^ 32 * (1 / 2) * (1 / 2 ^ 64) * (1 / 2) * 1 ≤
      a / b * ρ1 * t * ρ2 * m :=
    mul_lower (by norm_num) (by norm_num)
      (mul_lower (by norm_num) (by norm_num) q2 (le_trans hhalf l2)) hm1
  obtain ⟨ρ3, e3, l3, u3⟩ := round64_factor (le_trans (by norm_num) q3)
  have q4 : (1 : ℚ) / 2 ^ 32 * (1 / 2) * (1 / 2 ^ 64) * (1 / 2) * 1 * (1 / 2) / 2 ^ 32 ≤
      a / b * ρ1 * t * ρ2 * m * ρ3 / a := by
    have h3 := mul_lower (by norm_num) (by norm_num) q3 (le_trans hhalf l3)
    calc (1 : ℚ) / 2 ^ 32 * (1 / 2) * (1 / 2 ^ 64) * (1 / 2) * 1 * (1 / 2) / 2 ^ 32
        ≤ a / b * ρ1 * t * ρ2 * m * ρ3 / 2 ^ 32 :=
          div_le_div_of_nonneg_right h3 (by norm_num)
      _ ≤ a / b * ρ1 * t * ρ2 * m * ρ3 / a :=
          div_le_div_of_nonneg_left (le_trans (by norm_num) h3) hapos ha2
  obtain ⟨ρ4, e4, l4, u4⟩ := round64_factor (le_trans (by norm_num) q4)
  -- the given dimension
  have p1 : (1 : ℚ) / 2 ^ 64 * 1 ≤ t * m := mul_lower (by norm_num) (by norm_num) ht1 hm1
  obtain ⟨σ1, f1, k1, v1⟩ := round64_factor (le_trans (by norm_num) p1)
  have p2 : (1 : ℚ) / 2 ^ 64 * 1 * (1 / 2) / 2 ^ 32 ≤ t * m * σ1 / b := by
    have h1 := mul_lower (by norm_num) (by norm_num) p1 (le_trans hhalf k1)
    calc (1 : ℚ) / 2 ^ 64 * 1 * (1 / 2) / 2 ^ 32 ≤ t * m * σ1 / 2 ^ 32 :=
          div_le_div_of_nonneg_right h1 (by norm_num)
      _ ≤ t * m * σ1 / b := div_le_div_of_nonneg_left (le_trans (by norm_num) h1) hbpos hb2
  obtain ⟨σ2, f2, k2, v2⟩ := round64_factor (le_trans (by norm_num) p2)
  rw [e1, e2, e3, e4, f1, f2]
  -- both are the exact factor `t * m / b` times a product of rounding factors
  have hE : 0 < t * m / b := div_pos (mul_pos htpos (lt_of_lt_of_le one_pos hm1)) hbpos
  have hfour : a / b * ρ1 * t * ρ2 * m * ρ3 / a * ρ4 = t * m / b * (ρ1 * ρ2 * (ρ3 * ρ4)) := by
    field_simp
    ring
  have htwo : t * m * σ1 / b * σ2 = t * m / b * (σ1 * σ2) := by
    field_simp
    ring
  rw [hfour, htwo]
  obtain ⟨a12, b12⟩ := mul_between hlo ⟨l1, u1⟩ ⟨l2, u2⟩
  obtain ⟨a34, b34⟩ := mul_between hlo ⟨l3, u3⟩ ⟨l4, u4⟩
  obtain ⟨aP, bP⟩ := mul_between (by norm_num) ⟨a12, b12⟩ ⟨a34, b34⟩
  obtain ⟨aS, bS⟩ := mul_between hlo ⟨k1, v1⟩ ⟨k2, v2⟩
  set P : ℚ := ρ1 * ρ2 * (ρ3 * ρ4) with hP
  set S : ℚ := σ1 * σ2 with hS
  have hdiff : |P - S| ≤ S / 2 ^ 50 ∧ |P - S| ≤ P / 2 ^ 50 := by
    norm_num at aP bP aS bS
    constructor
    · rw [abs_le]
      constructor <;> linarith
    · rw [abs_le]
      constructor <;> linarith
  have hfac : t * m / b * P - t * m / b * S = t * m / b * (P - S) := by ring
  rw [hfac, abs_mul, abs_of_pos hE]
  constructor
  · calc t * m / b * |P - S| ≤ t * m / b * (S / 2 ^ 50) :=
          mul_le_mul_of_nonneg_left hdiff.1 hE.le
      _ = t * m / b * S / 2 ^ 50 := by ring
  · calc t * m / b * |P - S| ≤ t * m / b * (P / 2 ^ 50) :=
          mul_le_mul_of_nonneg_left hdiff.2 hE.le
      _ = t * m / b * P / 2 ^ 50 := by ring

/-- Under `round64`, for natural sizes between 1 and `2 ^ 32` and a target, when
given, between `2 ^ (-64)` and `2 ^ 64` millimetres, with at most one target
given: the two factors passed to `Scale` agree to a relative `2 ^ (-50)`. -/
theorem scaleArgsRnd_round64_close (g : Globals) (imgWd imgHt : ℚ)
    (hWd : 1 ≤ imgWd ∧ imgWd ≤ 2 ^ 32) (hHt : 1 ≤ imgHt ∧ imgHt ≤ 2 ^ 32)
    (h0 : g.imgW = 0 ∨ g.imgH = 0)
    (hW : g.imgW = 0 ∨ (1 / 2 ^ 64 ≤ g.imgW ∧ g.imgW ≤ 2 ^ 64))
    (hH : g.imgH = 0 ∨ (1 / 2 ^ 64 ≤ g.imgH ∧ g.imgH ≤ 2 ^ 64)) :
    |(scaleArgsRnd round64 (resolveRnd round64 g imgWd imgHt) imgWd imgHt).1 -
        (scaleArgsRnd round64 (resolveRnd round64 g imgWd imgHt) imgWd imgHt).2| ≤
      (scaleArgsRnd round64 (resolveRnd round64 g imgWd imgHt) imgWd imgHt).1 / 2 ^ 50 ∧
    |(scaleArgsRnd round64 (resolveRnd round64 g imgWd imgHt) imgWd imgHt).1 -
        (scaleArgsRnd round64 (resolveRnd round64 g imgWd imgHt) imgWd imgHt).2| ≤
      (scaleArgsRnd round64 (resolveRnd round64 g imgWd imgHt) imgWd imgHt).2 / 2 ^ 50 := by
  by_cases hW0 : g.imgW = 0
  · by_cases hH0 : g.imgH = 0
    · have h := scale_given_inferred imgHt imgWd 50 hHt hWd (by norm_num)
      rw [abs_sub_comm] at h
      simpa [scaleArgsRnd, resolveRnd, toPointsRnd, resolveSizeRnd, hW0, hH0] using
        And.intro h.1 h.2
    · have h := scale_given_inferred imgWd imgHt g.imgH hWd hHt (hH.resolve_left hH0)
      simpa [scaleArgsRnd, resolveRnd, toPointsRnd, resolveSizeRnd, hW0, hH0] using
        And.intro h.2 h.1
  · have hH0 : g.imgH = 0 := h0.resolve_left hW0
    have h := scale_given_inferred imgHt imgWd g.imgW hHt hWd (hW.resolve_left hW0)
    rw [abs_sub_comm] at h
    simpa [scaleArgsRnd, resolveRnd, toPointsRnd, resolveSizeRnd, hW0, hH0] using
      And.intro h.1 h.2

/-! ## The claims that depend on rounding -/

/-- C8 as stated fails on `float64`: with the flag defaults (no width, no
height) and a stamp of natural size 7 by 3, the factors passed to `Scale` are
20.247469066366705 and 20.2474690663667, which differ in the last bits. -/
theorem scaleArgsRnd_round64_differ :
    (0 : ℚ) < 7 ∧ (0 : ℚ) < 3 ∧ (defaults.imgW = 0 ∨ defaults.imgH = 0) ∧
    scaleArgsRnd round64 (resolveRnd round64 defaults 7 3) 7 3 =
      (356197242744081 / 17592186044416, 5699155883905295 / 281474976710656) ∧
    (scaleArgsRnd round64 (resolveRnd round64 defaults 7 3) 7 3).1 ≠
      (scaleArgsRnd round64 (resolveRnd round64 defaults 7 3) 7 3).2 := by
  decide!

/-- C8, amended: for a stamp of natural size `imgWd > 0` by `imgHt > 0`, when
the target width or the target height (or both) is 0, the two factors passed
to `Scale`, `imgW/imgWd` and `imgH/imgHt` for the resolved `imgW`, `imgH`, are
equal when the arithmetic of `markPDF` is exact; as `float64` values they agree
to a relative `2 ^ (-50)`, for natural sizes between 1 and `2 ^ 32` and a
target, when given, between `2 ^ (-64)` and `2 ^ 64` mm. -/
theorem scaleArgsRnd_uniform (g : Globals) (imgWd imgHt : ℚ)
    (hWd : 0 < imgWd) (hHt : 0 < imgHt) (h0 : g.imgW = 0 ∨ g.imgH = 0) :
    ((scaleArgsRnd id (resolveRnd id g imgWd imgHt) imgWd imgHt).1 =
        (scaleArgsRnd id (resolveRnd id g imgWd imgHt) imgWd imgHt).2 ∧
      (scaleArgsRnd id (resolveRnd id g imgWd imgHt) imgWd imgHt).1 =
        (resolveRnd id g imgWd imgHt).imgW / imgWd ∧
      (scaleArgsRnd id (resolveRnd id g imgWd imgHt) imgWd imgHt).2 =
        (resolveRnd id g imgWd imgHt).imgH / imgHt) ∧
    ((1 ≤ imgWd ∧ imgWd ≤ 2 ^ 32) → (1 ≤ imgHt ∧ imgHt ≤ 2 ^ 32) →
      (g.imgW = 0 ∨ (1 / 2 ^ 64 ≤ g.imgW ∧ g.imgW ≤ 2 ^ 64)) →
      (g.imgH = 0 ∨ (1 / 2 ^ 64 ≤ g.imgH ∧ g.imgH ≤ 2 ^ 64)) →
      |(scaleArgsRnd round64 (resolveRnd round64 g imgWd imgHt) imgWd imgHt).1 -
          (scaleArgsRnd round64 (resolveRnd round64 g imgWd imgHt) imgWd imgHt).2| ≤
        (scaleArgsRnd round64 (resolveRnd round64 g imgWd imgHt) imgWd imgHt).1 / 2 ^ 50 ∧
      |(scaleArgsRnd round64 (resolveRnd round64 g imgWd imgHt) imgWd imgHt).1 -
          (scaleArgsRnd round64 (resolveRnd round64 g imgWd imgHt) imgWd imgHt).2| ≤
        (scaleArgsRnd round64 (resolveRnd round64 g imgWd imgHt) imgWd imgHt).2 / 2 ^ 50) := by
  refine ⟨⟨?_, rfl, rfl⟩, fun rWd rHt rW rH =>
    scaleArgsRnd_round64_close g imgWd imgHt rWd rHt h0 rW rH⟩
  rw [scaleArgsRnd_id, resolveRnd_id]
  exact scaleArgs_uniform g imgWd imgHt hWd hHt h0

/-- Witness for C8: the flag defaults with a 7 by 3 stamp.  With exact
arithmetic both scale factors are 18000/889, that is 20.2474690663667...; the
`float64` factors, which differ, are within `2 ^ (-50)` of each other. -/
theorem scaleArgsRnd_uniform_witness :
    scaleArgsRnd id (resolveRnd id defaults 7 3) 7 3 = (18000 / 889, 18000 / 889) ∧
    |(scaleArgsRnd round64 (resolveRnd round64 defaults 7 3) 7 3).1 -
        (scaleArgsRnd round64 (resolveRnd round64 defaults 7 3) 7 3).2| ≤
      (scaleArgsRnd round64 (resolveRnd round64 defaults 7 3) 7 3).2 / 2 ^ 50 := by
  have h := scaleArgsRnd_uniform defaults 7 3 (by norm_num) (by norm_num) (Or.inl rfl)
  refine ⟨Prod.ext ?_ ?_, (h.2 (by norm_num) (by norm_num) (Or.inl rfl) (Or.inl rfl)).2⟩
  · rw [h.1.1, h.1.2.2]
    norm_num [resolveRnd, resolveSizeRnd, toPointsRnd, defaults, mm2pt]
  · rw [h.1.2.2]
    norm_num [resolveRnd, resolveSizeRnd, toPointsRnd, defaults, mm2pt]

/-- C9 as stated fails on `float64`: with a target width of `5e-324` mm (the
smallest positive `float64`), no target height and a 200 by 100 stamp, the
inferred height `100/200*5e-324` underflows to 0, and both factors passed to
`Scale` are 0. -/
theorem resolveRnd_round64_underflow :
    (0 : ℚ) < 200 ∧ (0 : ℚ) < 100 ∧ 0 ≤ tinyWidthFlags.imgW ∧ 0 ≤ tinyWidthFlags.imgH ∧
    (resolveSizeRnd round64 tinyWidthFlags 200 100).imgH = 0 ∧
    (resolveRnd round64 tinyWidthFlags 200 100).imgH = 0 ∧
    scaleArgsRnd round64 (resolveRnd round64 tinyWidthFlags 200 100) 200 100 = (0, 0) := by
  decide!

/-- C9, amended: for a stamp of natural size `imgWd > 0` by `imgHt > 0` and
non-negative target width and height, the width and the height after size
resolution are never both zero and one of them is strictly positive, whatever
the rounding; as `float64` values no resolved dimension and no scale factor is
negative, and the resolved width and height in points are not both zero when
each target is 0 or a positive `float64`; when the arithmetic of `markPDF` is
exact, width and height are both strictly positive, in millimetres and in
points, and so are the two factors passed to `Scale`. -/
theorem resolveRnd_pos (g : Globals) (imgWd imgHt : ℚ)
    (hWd : 0 < imgWd) (hHt : 0 < imgHt) (hW : 0 ≤ g.imgW) (hH : 0 ≤ g.imgH) :
    (∀ rnd : ℚ → ℚ,
      ¬ ((resolveSizeRnd rnd g imgWd imgHt).imgW = 0 ∧
          (resolveSizeRnd rnd g imgWd imgHt).imgH = 0) ∧
      (0 < (resolveSizeRnd rnd g imgWd imgHt).imgW ∨
        0 < (resolveSizeRnd rnd g imgWd imgHt).imgH)) ∧
    (0 ≤ (resolveSizeRnd round64 g imgWd imgHt).imgW ∧
      0 ≤ (resolveSizeRnd round64 g imgWd imgHt).imgH ∧
      0 ≤ (resolveRnd round64 g imgWd imgHt).imgW ∧
      0 ≤ (resolveRnd round64 g imgWd imgHt).imgH ∧
      0 ≤ (scaleArgsRnd round64 (resolveRnd round64 g imgWd imgHt) imgWd imgHt).1 ∧
      0 ≤ (scaleArgsRnd round64 (resolveRnd round64 g imgWd imgHt) imgWd imgHt).2) ∧
    ((g.imgW = 0 ∨ minSubnormal ≤ g.imgW) → (g.imgH = 0 ∨ minSubnormal ≤ g.imgH) →
      0 < (resolveRnd round64 g imgWd imgHt).imgW ∨
      0 < (resolveRnd round64 g imgWd imgHt).imgH) ∧
    (0 < (resolveSizeRnd id g imgWd imgHt).imgW ∧ 0 < (resolveSizeRnd id g imgWd imgHt).imgH ∧
      0 < (resolveRnd id g imgWd imgHt).imgW ∧ 0 < (resolveRnd id g imgWd imgHt).imgH ∧
      0 < (scaleArgsRnd id (resolveRnd id g imgWd imgHt) imgWd imgHt).1 ∧
      0 < (scaleArgsRnd id (resolveRnd id g imgWd imgHt) imgWd imgHt).2) := by
  have hmm := mm2pt_pos
  obtain ⟨kW, kH⟩ := resolveSize_pos g imgWd imgHt hWd hHt hW hH
  have pW : 0 < (resolve g imgWd imgHt).imgW := mul_pos kW hmm
  have pH : 0 < (resolve g imgWd imgHt).imgH := mul_pos kH hmm
  refine ⟨fun rnd => ⟨(resolveSizeRnd_not_both_zero rnd g imgWd imgHt).1,
    (resolveSizeRnd_not_both_zero rnd g imgWd imgHt).2 hW hH⟩,
    resolveRnd_round64_nonneg g imgWd imgHt hWd hHt hW hH,
    resolveRnd_round64_one_pos g imgWd imgHt, ?_⟩
  rw [scaleArgsRnd_id, resolveRnd_id, resolveSizeRnd_id]
  exact ⟨kW, kH, pW, pH, div_pos pW hWd, div_pos pH hHt⟩

/-- Witness for C9: the flags `-w 5e-324` with a 200 by 100 stamp, where the
`float64` height underflows: the resolved width in points is still positive
(`1.5e-323`), and with exact arithmetic both scale factors are positive. -/
theorem resolveRnd_pos_witness :
    ¬ ((resolveSizeRnd round64 tinyWidthFlags 200 100).imgW = 0 ∧
        (resolveSizeRnd round64 tinyWidthFlags 200 100).imgH = 0) ∧
    (0 < (resolveRnd round64 tinyWidthFlags 200 100).imgW ∨
      0 < (resolveRnd round64 tinyWidthFlags 200 100).imgH) ∧
    0 < (scaleArgsRnd id (resolveRnd id tinyWidthFlags 200 100) 200 100).1 ∧
    0 < (scaleArgsRnd id (resolveRnd id tinyWidthFlags 200 100) 200 100).2 :=
  have h := resolveRnd_pos tinyWidthFlags 200 100 (by norm_num) (by norm_num)
    (by decide!) (by decide!)
  ⟨(h.1 round64).1, h.2.2.1 (Or.inr (by decide!)) (Or.inl (by decide!)), h.2.2.2.2.2.2.2.1,
    h.2.2.2.2.2.2.2.2⟩

/-- C10 as stated fails on `float64`: `-p 3 -x 0 -w 4.5` with a 200 by 100
stamp on a page 595.276 pt wide and 842 pt high.  The resolved stamp is
12.755905511811022 pt wide, every hypothesis of the claim holds, the code
computes `x = 582.520094488189`, and `x + imgW` exceeds the page width, both as
an exact sum and as the `float64` sum 595.2760000000001. -/
theorem setPosArgsRnd_round64_off_page :
    (1 ≤ (resolveRnd round64 farEdgeFlags 200 100).imgPos ∧
      (resolveRnd round64 farEdgeFlags 200 100).imgPos ≤ 9) ∧
    0 ≤ (resolveRnd round64 farEdgeFlags 200 100).offsetX ∧
    0 ≤ (resolveRnd round64 farEdgeFlags 200 100).offsetY ∧
    0 ≤ (resolveRnd round64 farEdgeFlags 200 100).imgW ∧
    0 ≤ (resolveRnd round64 farEdgeFlags 200 100).imgH ∧
    (resolveRnd round64 farEdgeFlags 200 100).imgW +
      (resolveRnd round64 farEdgeFlags 200 100).offsetX ≤ round64 595.276 ∧
    (resolveRnd round64 farEdgeFlags 200 100).imgH +
      (resolveRnd round64 farEdgeFlags 200 100).offsetY ≤ 842 ∧
    (resolveRnd round64 farEdgeFlags 200 100).imgW = 224404262928771 / 17592186044416 ∧
    (setPosArgsRnd round64 (resolveRnd round64 farEdgeFlags 200 100)
      (round64 595.276) 842).1 = 320243808651469 / 549755813888 ∧
    round64 595.276 <
      (setPosArgsRnd round64 (resolveRnd round64 farEdgeFlags 200 100)
        (round64 595.276) 842).1 + (resolveRnd round64 farEdgeFlags 200 100).imgW ∧
    round64 595.276 <
      round64 ((setPosArgsRnd round64 (resolveRnd round64 farEdgeFlags 200 100)
        (round64 595.276) 842).1 + (resolveRnd round64 farEdgeFlags 200 100).imgW) := by
  decide!

/-- C10, amended: for every anchor code 1..9, when the resolved offsets and the
resolved stamp size are non-negative and the stamp with its margin fits the
page (`imgW + offsetX ≤ w`, `imgH + offsetY ≤ h`), the stamp rectangle lies on
the page, `0 ≤ x`, `x + imgW ≤ w`, `0 ≤ y`, `y + imgH ≤ h`, when the arithmetic
of `markPDF` is exact; as `float64` values, the offsets being `float64` numbers,
`0 ≤ x` and `0 ≤ y` hold and the two upper bounds hold up to a rounding error:
`x + imgW ≤ w + w / 2 ^ 51 + 2 ^ (-1073)` and
`y + imgH ≤ h + h / 2 ^ 51 + 2 ^ (-1073)`. -/
theorem setPosArgsRnd_on_page (g : Globals) (w h : ℚ)
    (hp : 1 ≤ g.imgPos ∧ g.imgPos ≤ 9)
    (hox : 0 ≤ g.offsetX) (hoy : 0 ≤ g.offsetY) (hiw : 0 ≤ g.imgW) (hih : 0 ≤ g.imgH)
    (hfx : g.imgW + g.offsetX ≤ w) (hfy : g.imgH + g.offsetY ≤ h) :
    (0 ≤ (setPosArgsRnd id g w h).1 ∧ (setPosArgsRnd id g w h).1 + g.imgW ≤ w ∧
      0 ≤ (setPosArgsRnd id g w h).2 ∧ (setPosArgsRnd id g w h).2 + g.imgH ≤ h) ∧
    (round64 g.offsetX = g.offsetX → round64 g.offsetY = g.offsetY →
      0 ≤ (setPosArgsRnd round64 g w h).1 ∧
      (setPosArgsRnd round64 g w h).1 + g.imgW ≤ w + (w / 2 ^ 51 + 2 ^ (-1073 : ℤ)) ∧
      0 ≤ (setPosArgsRnd round64 g w h).2 ∧
      (setPosArgsRnd round64 g w h).2 + g.imgH ≤ h + (h / 2 ^ 51 + 2 ^ (-1073 : ℤ))) := by
  refine ⟨?_, fun hrx hry =>
    setPosArgsRnd_round64_on_page g w h hp hox hoy hiw hih hfx hfy hrx hry⟩
  rw [setPosArgsRnd_id]
  exact setPosArgs_on_page g w h hp hox hoy hiw hih hfx hfy

/-- Witness for C10: `-p 3 -x 0 -w 4.5` with a 200 by 100 stamp on a page
595.276 pt wide and 842 pt high, where the `float64` sum `x + imgW` passes the
page width: `x` is not negative and the excess is within the rounding error. -/
theorem setPosArgsRnd_on_page_witness :
    0 ≤ (setPosArgsRnd round64 (resolveRnd round64 farEdgeFlags 200 100)
      (round64 595.276) 842).1 ∧
    (setPosArgsRnd round64 (resolveRnd round64 farEdgeFlags 200 100)
      (round64 595.276) 842).1 + (resolveRnd round64 farEdgeFlags 200 100).imgW ≤
      round64 595.276 + (round64 595.276 / 2 ^ 51 + 2 ^ (-1073 : ℤ)) ∧
    (setPosArgsRnd id (resolveRnd round64 farEdgeFlags 200 100) (round64 595.276) 842).1 +
      (resolveRnd round64 farEdgeFlags 200 100).imgW ≤ round64 595.276 :=
  have h := setPosArgsRnd_on_page (resolveRnd round64 farEdgeFlags 200 100)
    (round64 595.276) 842 (by decide!) (by decide!) (by decide!) (by decide!) (by decide!)
    (by decide!) (by decide!)
  have hf := h.2 (by decide!) (by decide!)
  ⟨hf.1, hf.2.1, h.1.2.1⟩

end Pdfst
